import Mathlib

/-!
Shallow embedding of the rank / re-sequencing core of the
micro-go-backend planner (handlers/section.go, handlers/task.go and the
fuller task-handler revision, over the sections/tasks tables of the
migration, whose tasks table carries FOREIGN KEY (section_id) REFERENCES
sections(id) ON DELETE CASCADE).

The two SQL tables are embedded as Lean lists of rows; each HTTP handler
becomes a function from the database state (plus the authenticated
user id the middleware stores in the request context) to a response
value paired with the new database state.  SQL statements that can fail
at the driver level (Exec of the delete / reorder steps, transaction
commit) take explicit Boolean failure inputs so that the error paths of
the handlers are part of the model.
-/

namespace Micro

/-- Row of the sections table: id, user_id, title, sort_order. -/
structure SectionRow where
  id : Nat
  userId : Nat
  title : String
  sortOrder : Nat
deriving DecidableEq

/-- Row of the tasks table: id, section_id, title, content, is_completed,
sort_order (titled, user-scoped schema variant used by the handlers). -/
structure TaskRow where
  id : Nat
  sectionId : Nat
  title : String
  content : String
  isCompleted : Bool
  sortOrder : Nat
deriving DecidableEq

/-- The persistent store: both tables plus the AUTO_INCREMENT counters. -/
structure Db where
  sections : List SectionRow
  tasks : List TaskRow
  nextSectionId : Nat
  nextTaskId : Nat
deriving DecidableEq

/-- mirrors models.CreateTaskInput (section_id, title, content). -/
structure CreateTaskInput where
  sectionId : Nat
  title : String
  content : String
deriving DecidableEq

/-- SELECT .. FROM sections WHERE user_id = u : the caller's section scope. -/
def secScope (db : Db) (u : Nat) : List SectionRow :=
  db.sections.filter (fun s => s.userId == u)

/-- The sort_order values of one user's sections. -/
def secRanks (db : Db) (u : Nat) : List Nat :=
  (secScope db u).map (fun s => s.sortOrder)

/-- SELECT .. FROM tasks WHERE section_id = sid : one section's task scope. -/
def taskScope (db : Db) (sid : Nat) : List TaskRow :=
  db.tasks.filter (fun t => t.sectionId == sid)

/-- The sort_order values of one section's tasks. -/
def taskRanks (db : Db) (sid : Nat) : List Nat :=
  (taskScope db sid).map (fun t => t.sortOrder)

/-- SELECT MAX(x): none on an empty scope (SQL NULL), otherwise the maximum. -/
def listMax : List Nat → Option Nat
  | [] => none
  | x :: xs =>
    match listMax xs with
    | none => some x
    | some m => some (max x m)

/-- newSort computation shared by CreateSection and CreateTask:
1 when MAX(sort_order) is NULL, otherwise max + 1. -/
def nextSort (ranks : List Nat) : Nat :=
  match listMax ranks with
  | none => 1
  | some m => m + 1

/-- SELECT EXISTS(SELECT 1 FROM sections WHERE id = sid). -/
def sectionExists (db : Db) (sid : Nat) : Bool :=
  db.sections.any (fun s => s.id == sid)

/-- Response JSON of CreateSection: id, title, sort, user_id. -/
structure CreateSectionResp where
  id : Nat
  title : String
  sort : Nat
  userId : Nat
deriving DecidableEq

/-- handlers/section.go CreateSection: reads MAX(sort_order) of the
caller's sections, inserts a new row with sort_order = max+1 (or 1 when
the scope is empty) and echoes the created entity. -/
def createSection (db : Db) (userId : Nat) (title : String) :
    CreateSectionResp × Db :=
  let newSort := nextSort (secRanks db userId)
  let sid := db.nextSectionId
  (⟨sid, title, newSort, userId⟩,
   { db with
       sections := db.sections ++ [⟨sid, userId, title, newSort⟩],
       nextSectionId := sid + 1 })

/-- Outcome of the current handlers/task.go CreateTask.  insertFailed is
the 500 branch reached when the INSERT is rejected (in the schema this
happens when section_id violates the foreign key, i.e. the section does
not exist). -/
inductive CreateTaskResp where
  | created (row : TaskRow)
  | insertFailed
deriving DecidableEq

/-- handlers/task.go CreateTask (current revision): no ownership check of
any kind — it reads MAX(sort_order) of the target section's tasks and
inserts; the authenticated user is never consulted. -/
def createTask (db : Db) (input : CreateTaskInput) : CreateTaskResp × Db :=
  if sectionExists db input.sectionId then
    let newSort := nextSort (taskRanks db input.sectionId)
    let tid := db.nextTaskId
    let row : TaskRow := ⟨tid, input.sectionId, input.title, input.content, false, newSort⟩
    (.created row,
     { db with tasks := db.tasks ++ [row], nextTaskId := tid + 1 })
  else
    (.insertFailed, db)

/-- Outcome of the fuller task-handler revision's CreateTask, which
rejects with 403 before touching the tasks table. -/
inductive CreateTaskCheckedResp where
  | forbidden
  | created (row : TaskRow)
deriving DecidableEq

/-- CreateTask of the fuller task-handler revision: SELECT user_id FROM
sections WHERE id = input.section_id; a missing row or an owner other
than the caller yields the Forbidden branch, otherwise the insert runs
exactly as in the current revision. -/
def createTaskChecked (db : Db) (userId : Nat) (input : CreateTaskInput) :
    CreateTaskCheckedResp × Db :=
  match db.sections.find? (fun s => s.id == input.sectionId) with
  | none => (.forbidden, db)
  | some s =>
    if s.userId ≠ userId then (.forbidden, db)
    else
      let newSort := nextSort (taskRanks db input.sectionId)
      let tid := db.nextTaskId
      let row : TaskRow := ⟨tid, input.sectionId, input.title, input.content, false, newSort⟩
      (.created row,
       { db with tasks := db.tasks ++ [row], nextTaskId := tid + 1 })

/-- Strict re-sequencing order on (sort_order, id) keys.  The delete
handlers renumber a scope in ascending sort_order; the order among rows
with equal sort_order is left unspecified by the SQL, and the embedding
breaks such ties by primary key.  In every state reachable by the
handlers the sort_order values of a scope are pairwise distinct, so the
tie-break is never exercised. -/
def keyLt (a b : Nat × Nat) : Bool :=
  a.1 < b.1 || (a.1 == b.1 && a.2 < b.2)

/-- New rank of the row with key a after renumbering: one plus the number
of rows of the scope that come before it. -/
def rankOf (keys : List (Nat × Nat)) (a : Nat × Nat) : Nat :=
  1 + (keys.filter (fun t => keyLt t a)).length

/-- Re-sequencing key of a section row. -/
def secKey (s : SectionRow) : Nat × Nat := (s.sortOrder, s.id)

/-- Re-sequencing key of a task row. -/
def taskKey (t : TaskRow) : Nat × Nat := (t.sortOrder, t.id)

/-- DeleteSection steps 3-4: SET @rank := 0 followed by
UPDATE sections SET sort_order = (@rank := @rank + 1) WHERE user_id = u
ORDER BY sort_order ASC — every section of user u gets sort_order equal
to its 1-based position in ascending previous sort_order. -/
def compactSections (db : Db) (u : Nat) : Db :=
  let keys := (secScope db u).map secKey
  { db with
      sections := db.sections.map (fun s =>
        if s.userId == u then { s with sortOrder := rankOf keys (secKey s) } else s) }

/-- DeleteTask reorder step: UPDATE via ROW_NUMBER() OVER (ORDER BY
sort_order) for the tasks of one section. -/
def compactTasks (db : Db) (sid : Nat) : Db :=
  let keys := (taskScope db sid).map taskKey
  { db with
      tasks := db.tasks.map (fun t =>
        if t.sectionId == sid then { t with sortOrder := rankOf keys (taskKey t) } else t) }

/-- The four exits of the DeleteSection handler. -/
inductive DeleteSectionResp where
  /-- 400 "Section not found or unauthorized" (missing and foreign are merged). -/
  | notFoundOrForbidden
  /-- 500 "Failed to delete section": the DELETE itself failed. -/
  | deleteFailed
  /-- 500 "Section deleted, but failed to reorder": delete committed, compaction failed. -/
  | reorderFailed
  /-- 200 "Section deleted and reordered". -/
  | deleted
deriving DecidableEq

/-- handlers/section.go DeleteSection: ownership/existence check, DELETE
(the migration's ON DELETE CASCADE also removes the section's tasks),
then the user-scope renumbering.  deleteFails / reorderFails model
driver-level failures of the two Exec phases. -/
def deleteSection (db : Db) (userId sid : Nat) (deleteFails reorderFails : Bool) :
    DeleteSectionResp × Db :=
  if db.sections.any (fun s => s.id == sid && s.userId == userId) then
    if deleteFails then (.deleteFailed, db)
    else
      let db1 : Db :=
        { db with
            sections := db.sections.filter (fun s => !(s.id == sid && s.userId == userId)),
            tasks := db.tasks.filter (fun t => !(t.sectionId == sid)) }
      if reorderFails then (.reorderFailed, db1)
      else (.deleted, compactSections db1 userId)
  else
    (.notFoundOrForbidden, db)

/-- The three exits of the UpdateSection handler. -/
inductive UpdateSectionResp where
  /-- 400 "Section not found or unauthorized" (missing and foreign are merged). -/
  | notFoundOrForbidden
  /-- 500 "Failed to update section". -/
  | updateFailed
  /-- 200 "Section updated". -/
  | updated
deriving DecidableEq

/-- handlers/section.go UpdateSection: the same merged ownership/existence
check as DeleteSection, then UPDATE of the title. -/
def updateSection (db : Db) (userId sid : Nat) (title : String) (execFails : Bool) :
    UpdateSectionResp × Db :=
  if db.sections.any (fun s => s.id == sid && s.userId == userId) then
    if execFails then (.updateFailed, db)
    else
      (.updated,
       { db with
           sections := db.sections.map (fun s =>
             if s.id == sid && s.userId == userId then { s with title := title } else s) })
  else
    (.notFoundOrForbidden, db)

/-- The four exits of the DeleteTask handler. -/
inductive DeleteTaskResp where
  /-- 400 "Invalid task ID": no task row with that id. -/
  | invalidTaskId
  /-- 500 "Failed to delete task". -/
  | deleteFailed
  /-- 500 "Task deleted, but failed to reorder". -/
  | reorderFailed
  /-- 200 "Task deleted and reordered". -/
  | deleted
deriving DecidableEq

/-- handlers/task.go DeleteTask (current revision, no ownership check):
SELECT section_id FROM tasks WHERE id = tid, DELETE the row, then the
ROW_NUMBER re-sequencing of that section's remaining tasks. -/
def deleteTask (db : Db) (tid : Nat) (deleteFails reorderFails : Bool) :
    DeleteTaskResp × Db :=
  match db.tasks.find? (fun t => t.id == tid) with
  | none => (.invalidTaskId, db)
  | some t =>
    if deleteFails then (.deleteFailed, db)
    else
      let db1 : Db := { db with tasks := db.tasks.filter (fun x => !(x.id == tid)) }
      if reorderFails then (.reorderFailed, db1)
      else (.deleted, compactTasks db1 t.sectionId)

/-- One element of the batch payload ([]models.SectionWithTasks): the
handler reads only the section id and the ids of the listed tasks. -/
structure PayloadSection where
  id : Nat
  tasks : List Nat
deriving DecidableEq

/-- The exits of the UpdateSectionsWithTasks handler. -/
inductive BatchResp where
  /-- 403 "Unauthorized section update": a listed section is missing or foreign. -/
  | forbidden
  /-- 500 "Failed to update section sort". -/
  | sectionSortFailed
  /-- 400 "Task not found". -/
  | taskNotFound
  /-- 500 "Failed to update task". -/
  | taskUpdateFailed
  /-- 500 "Transaction commit failed". -/
  | commitFailed
  /-- 200 "Sort orders updated". -/
  | ok
deriving DecidableEq

/-- UPDATE sections SET sort_order = i WHERE id = sid (no user filter). -/
def updSectionSort (db : Db) (sid i : Nat) : Db :=
  { db with
      sections := db.sections.map (fun s =>
        if s.id == sid then { s with sortOrder := i } else s) }

/-- UPDATE tasks SET section_id = sid, sort_order = p WHERE id = tid. -/
def updTask (db : Db) (tid sid p : Nat) : Db :=
  { db with
      tasks := db.tasks.map (fun t =>
        if t.id == tid then { t with sectionId := sid, sortOrder := p } else t) }

/-- Inner task loop of UpdateSectionsWithTasks: for the task at 1-based
position p, check it exists (SELECT section_id FROM tasks WHERE id = ?),
then re-parent it to the enclosing payload section and set its rank to p.
The counter k numbers the Exec statements of the transaction; oracle k
true models a driver failure of that Exec. -/
def runTasks (sid : Nat) (p : Nat) (taskIds : List Nat) (db : Db) (k : Nat)
    (oracle : Nat → Bool) : Except BatchResp (Db × Nat) :=
  match taskIds with
  | [] => .ok (db, k)
  | tid :: rest =>
    if (db.tasks.find? (fun t => t.id == tid)).isSome then
      if oracle k then .error .taskUpdateFailed
      else runTasks sid (p + 1) rest (updTask db tid sid p) (k + 1) oracle
    else .error .taskNotFound

/-- Outer section loop of UpdateSectionsWithTasks: for the section at
1-based position i, SELECT user_id FROM sections WHERE id = ? (a missing
row or a foreign owner aborts with the Forbidden branch), set its
sort_order to i, then run its task list. -/
def runSections (u : Nat) (i : Nat) (payload : List PayloadSection) (db : Db) (k : Nat)
    (oracle : Nat → Bool) : Except BatchResp (Db × Nat) :=
  match payload with
  | [] => .ok (db, k)
  | s :: rest =>
    match db.sections.find? (fun r => r.id == s.id) with
    | none => .error .forbidden
    | some r =>
      if r.userId ≠ u then .error .forbidden
      else if oracle k then .error .sectionSortFailed
      else
        match runTasks s.id 1 s.tasks (updSectionSort db s.id i) (k + 1) oracle with
        | .error e => .error e
        | .ok (db2, k2) => runSections u (i + 1) rest db2 k2 oracle

/-- handlers/section.go UpdateSectionsWithTasks: the whole batch runs in
one transaction; any failing step rolls the transaction back, so the
stored state is returned unchanged on every non-ok exit (including a
failed commit). -/
def updateSectionsWithTasks (db : Db) (u : Nat) (payload : List PayloadSection)
    (oracle : Nat → Bool) (commitFails : Bool) : BatchResp × Db :=
  match runSections u 1 payload db 0 oracle with
  | .error e => (e, db)
  | .ok (db2, _) => if commitFails then (.commitFailed, db) else (.ok, db2)

/-- The empty store (AUTO_INCREMENT counters start at 1). -/
def emptyDb : Db := ⟨[], [], 1, 1⟩

/-- The four lifecycle operations quantified over by the density
invariant. -/
inductive Op where
  | createSection (userId : Nat) (title : String)
  | deleteSection (userId sid : Nat)
  | createTask (input : CreateTaskInput)
  | deleteTask (tid : Nat)

/-- State transition of one completed operation (the delete operations
taken on their fully-successful path, compaction included; a failed
ownership/existence check leaves the store untouched). -/
def applyOp (db : Db) : Op → Db
  | .createSection u t => (createSection db u t).2
  | .deleteSection u sid => (deleteSection db u sid false false).2
  | .createTask input => (createTask db input).2
  | .deleteTask tid => (deleteTask db tid false false).2

/-- Replay a whole operation sequence against the empty store. -/
def runOps (ops : List Op) : Db :=
  ops.foldl applyOp emptyDb

/-- A rank list is dense when it is a permutation of 1..count. -/
def denseList (l : List Nat) : Prop :=
  l.Perm (List.range' 1 l.length)

instance (l : List Nat) : Decidable (denseList l) :=
  inferInstanceAs (Decidable (l.Perm (List.range' 1 l.length)))

/-- The per-row effect of the section renumbering UPDATE. -/
def secRenumber (db : Db) (u : Nat) (s : SectionRow) : SectionRow :=
  if s.userId == u then
    { s with sortOrder := rankOf ((secScope db u).map secKey) (secKey s) }
  else s

/-- The per-row effect of the ROW_NUMBER task renumbering UPDATE. -/
def taskRenumber (db : Db) (sid : Nat) (t : TaskRow) : TaskRow :=
  if t.sectionId == sid then
    { t with sortOrder := rankOf ((taskScope db sid).map taskKey) (taskKey t) }
  else t

/-- The row CreateSection inserts. -/
def newSectionRow (db : Db) (u : Nat) (title : String) : SectionRow :=
  ⟨db.nextSectionId, u, title, nextSort (secRanks db u)⟩

/-- The row CreateTask inserts (when the foreign key admits it). -/
def newTaskRow (db : Db) (input : CreateTaskInput) : TaskRow :=
  ⟨db.nextTaskId, input.sectionId, input.title, input.content, false,
    nextSort (taskRanks db input.sectionId)⟩

/-- Store state right after the DELETE of DeleteSection (section removed,
tasks removed by the foreign-key cascade), before the renumbering. -/
def delSectionDb (db : Db) (u sid : Nat) : Db :=
  { db with
      sections := db.sections.filter (fun s => !(s.id == sid && s.userId == u)),
      tasks := db.tasks.filter (fun t => !(t.sectionId == sid)) }

/-- Store state right after the DELETE of DeleteTask, before the
ROW_NUMBER renumbering. -/
def delTaskDb (db : Db) (tid : Nat) : Db :=
  { db with tasks := db.tasks.filter (fun x => !(x.id == tid)) }

/-- All task ids listed anywhere in a batch payload, in order. -/
def payloadTaskIds : List PayloadSection → List Nat
  | [] => []
  | s :: rest => s.tasks ++ payloadTaskIds rest

/-- The section with this id exists and belongs to this user. -/
def sectionOwnedBy (db : Db) (sid u : Nat) : Prop :=
  ∃ r ∈ db.sections, r.id = sid ∧ r.userId = u

/-- A task row with this id exists. -/
def taskExists (db : Db) (tid : Nat) : Prop :=
  ∃ t ∈ db.tasks, t.id = tid

instance (db : Db) (sid u : Nat) : Decidable (sectionOwnedBy db sid u) :=
  inferInstanceAs (Decidable (∃ r ∈ db.sections, r.id = sid ∧ r.userId = u))

instance (db : Db) (tid : Nat) : Decidable (taskExists db tid) :=
  inferInstanceAs (Decidable (∃ t ∈ db.tasks, t.id = tid))

/-! State invariant preserved by the four lifecycle operations: primary
keys are unique and below the AUTO_INCREMENT counters, and every rank
scope is dense. -/

structure Inv (db : Db) : Prop where
  secNodup : (db.sections.map (fun s => s.id)).Nodup
  taskNodup : (db.tasks.map (fun t => t.id)).Nodup
  secFresh : ∀ i ∈ db.sections.map (fun s => s.id), i < db.nextSectionId
  taskFresh : ∀ i ∈ db.tasks.map (fun t => t.id), i < db.nextTaskId
  secDense : ∀ u, denseList (secRanks db u)
  taskDense : ∀ sid, denseList (taskRanks db sid)

/-- Concrete store used by witnesses: user 1 owns sections 1 (rank 1) and
2 (rank 2); user 2 owns section 3 (rank 1); section 1 holds tasks 1 and 2
with ranks 1 and 2. -/
def dbA : Db :=
  ⟨[⟨1, 1, "a", 1⟩, ⟨2, 1, "b", 2⟩, ⟨3, 2, "c", 1⟩],
   [⟨1, 1, "t", "x", false, 1⟩, ⟨2, 1, "u", "y", false, 2⟩], 4, 3⟩

/-- Store for the batch-completeness counterexample: user 1 owns section
1 (rank 1) holding tasks 1, 2, 3 with ranks 1, 2, 3. -/
def dbC2 : Db :=
  ⟨[⟨1, 1, "s", 1⟩],
   [⟨1, 1, "X", "x", false, 1⟩, ⟨2, 1, "Y", "y", false, 2⟩, ⟨3, 1, "Z", "z", false, 3⟩],
   2, 4⟩

/-- Store for the duplicate-listing counterexample: user 1 owns section 1
with rank 1. -/
def dbC4 : Db := ⟨[⟨1, 1, "a", 1⟩], [], 2, 1⟩

/-- Store for the CreateTask ownership question: section 5 belongs to
user 1 and holds no tasks. -/
def dbC9 : Db := ⟨[⟨5, 1, "s", 1⟩], [], 6, 1⟩

/-- Store for the batch task-ownership question: user 1 owns section 1,
user 2 owns section 2, and task 7 currently sits in section 2. -/
def dbC10 : Db :=
  ⟨[⟨1, 1, "mine", 1⟩, ⟨2, 2, "theirs", 1⟩], [⟨7, 2, "t", "c", false, 1⟩], 3, 8⟩

/-! Basic facts about the SQL MAX embedding. -/

theorem listMax_eq_none (l : List Nat) : listMax l = none ↔ l = [] := by
  induction l with
  | nil => simp [listMax]
  | cons x xs ih =>
    simp only [listMax]
    cases h : listMax xs <;> simp

theorem listMax_spec (l : List Nat) (m : Nat) (h : listMax l = some m) :
    m ∈ l ∧ ∀ x ∈ l, x ≤ m := by
  induction l generalizing m with
  | nil => simp [listMax] at h
  | cons x xs ih =>
    simp only [listMax] at h
    cases hx : listMax xs with
    | none =>
      rw [hx] at h
      have hxs : xs = [] := (listMax_eq_none xs).mp hx
      subst hxs
      simp at h
      subst h
      simp
    | some m0 =>
      rw [hx] at h
      simp at h
      obtain ⟨hm0, hall⟩ := ih m0 hx
      subst h
      refine ⟨?_, ?_⟩
      · rcases max_choice x m0 with hc | hc
        · rw [hc]
          exact List.mem_cons_self x xs
        · rw [hc]
          exact List.mem_cons_of_mem x hm0
      · intro y hy
        rcases List.mem_cons.mp hy with rfl | hy
        · exact le_max_left _ _
        · exact Nat.le_trans (hall y hy) (le_max_right _ _)

theorem range'_one_mem (n m : Nat) : m ∈ List.range' 1 n ↔ 1 ≤ m ∧ m ≤ n := by
  rw [List.mem_range'_1]
  omega

theorem denseList_mem (l : List Nat) (hd : denseList l) (m : Nat) :
    m ∈ l ↔ 1 ≤ m ∧ m ≤ l.length := by
  rw [hd.mem_iff, range'_one_mem]

theorem listMax_of_dense (l : List Nat) (hne : l ≠ []) (hd : denseList l) :
    listMax l = some l.length := by
  cases hm : listMax l with
  | none => exact absurd ((listMax_eq_none l).mp hm) hne
  | some m =>
    obtain ⟨hmem, hall⟩ := listMax_spec l m hm
    have h1 : m ≤ l.length := ((denseList_mem l hd m).mp hmem).2
    have h2 : 0 < l.length := List.length_pos.mpr hne
    have h3 : l.length ∈ l := (denseList_mem l hd l.length).mpr ⟨h2, Nat.le_refl _⟩
    have h4 : l.length ≤ m := hall _ h3
    rw [Nat.le_antisymm h1 h4]

theorem range'_one_snoc (n : Nat) :
    List.range' 1 (n + 1) = List.range' 1 n ++ [n + 1] := by
  have h := @List.range'_concat 1 1 n
  simpa [Nat.add_comm] using h

theorem denseList_nil : denseList [] := by decide

theorem denseList_append_succ (l : List Nat) (hd : denseList l) :
    denseList (l ++ [l.length + 1]) := by
  unfold denseList
  rw [List.length_append, List.length_singleton, range'_one_snoc]
  exact hd.append_right [l.length + 1]

theorem denseList_nodup (l : List Nat) (hd : denseList l) : l.Nodup :=
  hd.nodup_iff.mpr (List.nodup_range' 1 l.length)

/-! Counting helpers. -/

theorem countP_range'_lt (n r : Nat) (h1 : 1 ≤ r) (h2 : r ≤ n) :
    List.countP (fun x => decide (x < r)) (List.range' 1 n) = r - 1 := by
  induction n with
  | zero => omega
  | succ n ih =>
    rw [range'_one_snoc, List.countP_append]
    rcases Nat.lt_or_ge r (n + 1) with hr | hr
    · have hlast : List.countP (fun x => decide (x < r)) [n + 1] = 0 := by
        have hnot : ¬ (n + 1 < r) := by omega
        simp [List.countP_cons, hnot]
      rw [hlast, ih (by omega)]
      omega
    · have hrn : r = n + 1 := by omega
      subst hrn
      have hall : List.countP (fun x => decide (x < n + 1)) (List.range' 1 n) =
          (List.range' 1 n).length := by
        rw [List.countP_eq_length]
        intro a ha
        have hb := (range'_one_mem n a).mp ha
        simp only [decide_eq_true_eq]
        omega
      have hone : List.countP (fun x => decide (x < n + 1)) [n + 1] = 0 := by
        simp [List.countP_cons]
      rw [hall, hone, List.length_range']
      omega

theorem countP_lt_of_witness {α : Type} (l : List α) (p q : α → Bool) (a : α)
    (hmono : ∀ x ∈ l, p x = true → q x = true) (ha : a ∈ l)
    (hpa : p a = false) (hqa : q a = true) :
    l.countP p < l.countP q := by
  induction l with
  | nil => simp at ha
  | cons x xs ih =>
    have hmono' : ∀ y ∈ xs, p y = true → q y = true := by
      intro y hy
      exact hmono y (List.mem_cons_of_mem x hy)
    rw [List.countP_cons, List.countP_cons]
    rcases List.mem_cons.mp ha with rfl | ha
    · have hle : xs.countP p ≤ xs.countP q := List.countP_mono_left hmono'
      rw [hpa, hqa]
      simp only [Bool.false_eq_true, if_false, if_true]
      omega
    · have hstep := ih hmono' ha
      have hx : (if p x = true then 1 else 0) ≤ (if q x = true then 1 else 0) := by
        cases hpx : p x with
        | false => simp
        | true =>
          rw [hmono x (List.mem_cons_self x xs) hpx]
      omega

theorem filter_length_lt_of_witness {α : Type} (l : List α) (p q : α → Bool) (a : α)
    (hmono : ∀ x ∈ l, p x = true → q x = true) (ha : a ∈ l)
    (hpa : p a = false) (hqa : q a = true) :
    (l.filter p).length < (l.filter q).length := by
  rw [← List.countP_eq_length_filter, ← List.countP_eq_length_filter]
  exact countP_lt_of_witness l p q a hmono ha hpa hqa

theorem filter_length_lt_of_mem_false {α : Type} (l : List α) (p : α → Bool) (a : α)
    (ha : a ∈ l) (hpa : p a = false) :
    (l.filter p).length < l.length := by
  rw [List.length_filter_lt_length_iff_exists]
  exact ⟨a, ha, by simp [hpa]⟩

/-! Framing: a row-wise table update that fixes every row a filter keeps,
and never changes whether the filter keeps a row, commutes away. -/

theorem filter_map_fixed {α : Type} (l : List α) (f : α → α) (p : α → Bool)
    (hfix : ∀ a ∈ l, p a = true → f a = a) (hpres : ∀ a ∈ l, p (f a) = p a) :
    (l.map f).filter p = l.filter p := by
  induction l with
  | nil => simp
  | cons x xs ih =>
    have hfix' : ∀ a ∈ xs, p a = true → f a = a := fun a ha => hfix a (List.mem_cons_of_mem x ha)
    have hpres' : ∀ a ∈ xs, p (f a) = p a := fun a ha => hpres a (List.mem_cons_of_mem x ha)
    simp only [List.map_cons, List.filter_cons]
    rw [hpres x (List.mem_cons_self x xs)]
    cases hx : p x with
    | false => simpa using ih hfix' hpres'
    | true =>
      rw [hfix x (List.mem_cons_self x xs) hx]
      simpa using ih hfix' hpres'

theorem filter_map_scope {α : Type} (l : List α) (f : α → α) (p : α → Bool)
    (hpres : ∀ a ∈ l, p (f a) = p a) :
    (l.map f).filter p = (l.filter p).map f := by
  rw [List.filter_map]
  congr 1
  apply List.filter_congr
  intro a ha
  exact hpres a ha

/-! Facts about the re-sequencing order and the rank assignment. -/

theorem keyLt_irrefl (a : Nat × Nat) : keyLt a a = false := by
  simp [keyLt]

theorem keyLt_trans (a b c : Nat × Nat) (h1 : keyLt a b = true) (h2 : keyLt b c = true) :
    keyLt a c = true := by
  simp only [keyLt, Bool.or_eq_true, Bool.and_eq_true, decide_eq_true_eq, beq_iff_eq] at *
  omega

theorem keyLt_total (a b : Nat × Nat) (hne : a ≠ b) :
    keyLt a b = true ∨ keyLt b a = true := by
  simp only [keyLt, Bool.or_eq_true, Bool.and_eq_true, decide_eq_true_eq, beq_iff_eq]
  by_cases h : a.1 = b.1
  · by_cases h2 : a.2 = b.2
    · exact absurd (Prod.ext_iff.mpr ⟨h, h2⟩) hne
    · omega
  · omega

theorem rankOf_pos (keys : List (Nat × Nat)) (a : Nat × Nat) : 1 ≤ rankOf keys a :=
  Nat.le_add_right 1 _

theorem rankOf_le_length (keys : List (Nat × Nat)) (a : Nat × Nat) (ha : a ∈ keys) :
    rankOf keys a ≤ keys.length := by
  unfold rankOf
  have h := filter_length_lt_of_mem_false keys (fun t => keyLt t a) a ha (keyLt_irrefl a)
  omega

theorem rankOf_strict_mono (keys : List (Nat × Nat)) (a b : Nat × Nat)
    (ha : a ∈ keys) (hab : keyLt a b = true) :
    rankOf keys a < rankOf keys b := by
  unfold rankOf
  have h := filter_length_lt_of_witness keys (fun t => keyLt t a) (fun t => keyLt t b) a
    (fun x _ hxa => keyLt_trans x a b hxa hab) ha (keyLt_irrefl a) hab
  omega

theorem rankOf_inj (keys : List (Nat × Nat)) (a b : Nat × Nat)
    (ha : a ∈ keys) (hb : b ∈ keys) (h : rankOf keys a = rankOf keys b) : a = b := by
  by_contra hne
  rcases keyLt_total a b hne with hl | hl
  · exact absurd h (Nat.ne_of_lt (rankOf_strict_mono keys a b ha hl))
  · exact absurd h.symm (Nat.ne_of_lt (rankOf_strict_mono keys b a hb hl))

theorem rankOf_perm (keys : List (Nat × Nat)) (hnd : keys.Nodup) :
    (keys.map (rankOf keys)).Perm (List.range' 1 keys.length) := by
  have hmapnd : (keys.map (rankOf keys)).Nodup :=
    List.Nodup.map_on (fun x hx y hy h => rankOf_inj keys x y hx hy h) hnd
  have hrangend : (List.range' 1 keys.length).Nodup := List.nodup_range' 1 keys.length
  apply List.perm_of_nodup_nodup_toFinset_eq hmapnd hrangend
  have hsub : (keys.map (rankOf keys)).toFinset ⊆ (List.range' 1 keys.length).toFinset := by
    intro x hx
    rw [List.mem_toFinset] at hx ⊢
    obtain ⟨a, ha, rfl⟩ := List.mem_map.mp hx
    exact (range'_one_mem _ _).mpr ⟨rankOf_pos keys a, rankOf_le_length keys a ha⟩
  have hcard : (List.range' 1 keys.length).toFinset.card ≤ (keys.map (rankOf keys)).toFinset.card := by
    rw [List.toFinset_card_of_nodup hmapnd, List.toFinset_card_of_nodup hrangend,
      List.length_map, List.length_range']
  exact Finset.eq_of_subset_of_card_le hsub hcard

theorem ranks_map_perm {α : Type} (scope : List α) (key : α → Nat × Nat)
    (hnd : (scope.map key).Nodup) :
    (scope.map (fun s => rankOf (scope.map key) (key s))).Perm
      (List.range' 1 scope.length) := by
  have h := rankOf_perm (scope.map key) hnd
  rw [List.map_map] at h
  simpa [Function.comp, List.length_map] using h

theorem rankOf_dense_fst (keys : List (Nat × Nat))
    (hd : denseList (keys.map Prod.fst)) (a : Nat × Nat) (ha : a ∈ keys) :
    rankOf keys a = a.1 := by
  have hnd : (keys.map Prod.fst).Nodup := denseList_nodup _ hd
  have hpt : ∀ t ∈ keys, keyLt t a = decide (t.1 < a.1) := by
    intro t ht
    by_cases hfst : t.1 = a.1
    · have hta : t = a := List.inj_on_of_nodup_map hnd ht ha hfst
      subst hta
      simp [keyLt]
    · have hff : (t.1 == a.1) = false := by
        simpa using hfst
      simp [keyLt, hff]
  unfold rankOf
  rw [List.filter_congr hpt]
  have hcnt : (keys.filter (fun t => decide (t.1 < a.1))).length
      = List.countP (fun x => decide (x < a.1)) (keys.map Prod.fst) := by
    rw [List.countP_map, ← List.countP_eq_length_filter]
    rfl
  have hb := (denseList_mem _ hd a.1).mp (List.mem_map_of_mem Prod.fst ha)
  rw [hcnt, List.Perm.countP_eq _ hd,
    countP_range'_lt _ a.1 hb.1 (by simpa using hb.2)]
  omega

theorem db_ext (a b : Db) (h1 : a.sections = b.sections) (h2 : a.tasks = b.tasks)
    (h3 : a.nextSectionId = b.nextSectionId) (h4 : a.nextTaskId = b.nextTaskId) : a = b := by
  cases a
  cases b
  simp_all

/-! Compaction of a user's section scope. -/

theorem secRenumber_userId (db : Db) (u : Nat) (s : SectionRow) :
    (secRenumber db u s).userId = s.userId := by
  unfold secRenumber
  by_cases h : (s.userId == u) = true <;> simp [h]

theorem secRenumber_id (db : Db) (u : Nat) (s : SectionRow) :
    (secRenumber db u s).id = s.id := by
  unfold secRenumber
  by_cases h : (s.userId == u) = true <;> simp [h]

theorem secRenumber_fix (db : Db) (u : Nat) (s : SectionRow)
    (h : (s.userId == u) = false) : secRenumber db u s = s := by
  simp [secRenumber, h]

theorem compactSections_sections (db : Db) (u : Nat) :
    (compactSections db u).sections = db.sections.map (secRenumber db u) := rfl

theorem compactSections_tasks (db : Db) (u : Nat) :
    (compactSections db u).tasks = db.tasks := rfl

theorem compactSections_ids (db : Db) (u : Nat) :
    (compactSections db u).sections.map (fun s => s.id) = db.sections.map (fun s => s.id) := by
  rw [compactSections_sections, List.map_map]
  apply List.map_congr_left
  intro a _
  simp [Function.comp, secRenumber_id]

theorem secScope_compact_self (db : Db) (u : Nat) :
    secScope (compactSections db u) u = (secScope db u).map (secRenumber db u) := by
  rw [secScope, compactSections_sections, filter_map_scope]
  · rfl
  · intro a _
    rw [secRenumber_userId]

theorem secRanks_compact_self (db : Db) (u : Nat) :
    secRanks (compactSections db u) u =
      (secScope db u).map (fun s => rankOf ((secScope db u).map secKey) (secKey s)) := by
  rw [secRanks, secScope_compact_self, List.map_map]
  apply List.map_congr_left
  intro a ha
  have hpa := (List.mem_filter.mp ha).2
  simp [Function.comp, secRenumber, hpa]

theorem compactSections_dense (db : Db) (u : Nat)
    (hnd : ((secScope db u).map (fun s => s.id)).Nodup) :
    denseList (secRanks (compactSections db u) u) := by
  have hkeys : ((secScope db u).map secKey).Nodup := by
    apply List.Nodup.of_map Prod.snd
    rw [List.map_map]
    simpa [Function.comp, secKey] using hnd
  have hperm := ranks_map_perm (secScope db u) secKey hkeys
  have hlen : (secScope (compactSections db u) u).length = (secScope db u).length := by
    rw [secScope_compact_self, List.length_map]
  rw [denseList, secRanks_compact_self, List.length_map]
  exact hperm

theorem secScope_compact_other (db : Db) (u u0 : Nat) (hne : u0 ≠ u) :
    secScope (compactSections db u) u0 = secScope db u0 := by
  have hfix : ∀ a ∈ db.sections, (a.userId == u0) = true → secRenumber db u a = a := by
    intro a _ hpa
    apply secRenumber_fix
    have ha0 : a.userId = u0 := by simpa using hpa
    simp [ha0, hne]
  have hpres : ∀ a ∈ db.sections, ((secRenumber db u a).userId == u0) = (a.userId == u0) := by
    intro a _
    rw [secRenumber_userId]
  rw [secScope, compactSections_sections, filter_map_fixed db.sections _ _ hfix hpres]
  rfl

theorem compactSections_dense_noop (db : Db) (u : Nat) (hd : denseList (secRanks db u)) :
    compactSections db u = db := by
  have hkeysfst : ((secScope db u).map secKey).map Prod.fst = secRanks db u := by
    rw [List.map_map]
    rfl
  refine db_ext _ _ ?_ rfl rfl rfl
  rw [compactSections_sections]
  have hid : ∀ s ∈ db.sections, secRenumber db u s = s := by
    intro s hs
    by_cases h : (s.userId == u) = true
    · have hmem : s ∈ secScope db u := List.mem_filter.mpr ⟨hs, h⟩
      have hkey : secKey s ∈ (secScope db u).map secKey := List.mem_map_of_mem secKey hmem
      have hr : rankOf ((secScope db u).map secKey) (secKey s) = s.sortOrder :=
        rankOf_dense_fst ((secScope db u).map secKey) (by rw [hkeysfst]; exact hd)
          (secKey s) hkey
      simp only [secRenumber, h, if_true]
      rw [hr]
    · exact secRenumber_fix db u s (by simpa using h)
  rw [List.map_congr_left hid, List.map_id']

/-! Compaction of a section's task scope. -/

theorem taskRenumber_sectionId (db : Db) (sid : Nat) (t : TaskRow) :
    (taskRenumber db sid t).sectionId = t.sectionId := by
  unfold taskRenumber
  by_cases h : (t.sectionId == sid) = true <;> simp [h]

theorem taskRenumber_id (db : Db) (sid : Nat) (t : TaskRow) :
    (taskRenumber db sid t).id = t.id := by
  unfold taskRenumber
  by_cases h : (t.sectionId == sid) = true <;> simp [h]

theorem taskRenumber_fix (db : Db) (sid : Nat) (t : TaskRow)
    (h : (t.sectionId == sid) = false) : taskRenumber db sid t = t := by
  simp [taskRenumber, h]

theorem compactTasks_tasks (db : Db) (sid : Nat) :
    (compactTasks db sid).tasks = db.tasks.map (taskRenumber db sid) := rfl

theorem compactTasks_sections (db : Db) (sid : Nat) :
    (compactTasks db sid).sections = db.sections := rfl

theorem compactTasks_ids (db : Db) (sid : Nat) :
    (compactTasks db sid).tasks.map (fun t => t.id) = db.tasks.map (fun t => t.id) := by
  rw [compactTasks_tasks, List.map_map]
  apply List.map_congr_left
  intro a _
  simp [Function.comp, taskRenumber_id]

theorem taskScope_compact_self (db : Db) (sid : Nat) :
    taskScope (compactTasks db sid) sid = (taskScope db sid).map (taskRenumber db sid) := by
  rw [taskScope, compactTasks_tasks, filter_map_scope]
  · rfl
  · intro a _
    rw [taskRenumber_sectionId]

theorem taskRanks_compact_self (db : Db) (sid : Nat) :
    taskRanks (compactTasks db sid) sid =
      (taskScope db sid).map (fun t => rankOf ((taskScope db sid).map taskKey) (taskKey t)) := by
  rw [taskRanks, taskScope_compact_self, List.map_map]
  apply List.map_congr_left
  intro a ha
  have hpa := (List.mem_filter.mp ha).2
  simp [Function.comp, taskRenumber, hpa]

theorem compactTasks_dense (db : Db) (sid : Nat)
    (hnd : ((taskScope db sid).map (fun t => t.id)).Nodup) :
    denseList (taskRanks (compactTasks db sid) sid) := by
  have hkeys : ((taskScope db sid).map taskKey).Nodup := by
    apply List.Nodup.of_map Prod.snd
    rw [List.map_map]
    simpa [Function.comp, taskKey] using hnd
  have hperm := ranks_map_perm (taskScope db sid) taskKey hkeys
  rw [denseList, taskRanks_compact_self, List.length_map]
  exact hperm

theorem taskScope_compact_other (db : Db) (sid sid0 : Nat) (hne : sid0 ≠ sid) :
    taskScope (compactTasks db sid) sid0 = taskScope db sid0 := by
  have hfix : ∀ a ∈ db.tasks, (a.sectionId == sid0) = true → taskRenumber db sid a = a := by
    intro a _ hpa
    apply taskRenumber_fix
    have ha0 : a.sectionId = sid0 := by simpa using hpa
    simp [ha0, hne]
  have hpres : ∀ a ∈ db.tasks, ((taskRenumber db sid a).sectionId == sid0) = (a.sectionId == sid0) := by
    intro a _
    rw [taskRenumber_sectionId]
  rw [taskScope, compactTasks_tasks, filter_map_fixed db.tasks _ _ hfix hpres]
  rfl

theorem compactTasks_dense_noop (db : Db) (sid : Nat) (hd : denseList (taskRanks db sid)) :
    compactTasks db sid = db := by
  have hkeysfst : ((taskScope db sid).map taskKey).map Prod.fst = taskRanks db sid := by
    rw [List.map_map]
    rfl
  refine db_ext _ _ rfl ?_ rfl rfl
  rw [compactTasks_tasks]
  have hid : ∀ t ∈ db.tasks, taskRenumber db sid t = t := by
    intro t ht
    by_cases h : (t.sectionId == sid) = true
    · have hmem : t ∈ taskScope db sid := List.mem_filter.mpr ⟨ht, h⟩
      have hkey : taskKey t ∈ (taskScope db sid).map taskKey := List.mem_map_of_mem taskKey hmem
      have hr : rankOf ((taskScope db sid).map taskKey) (taskKey t) = t.sortOrder :=
        rankOf_dense_fst ((taskScope db sid).map taskKey) (by rw [hkeysfst]; exact hd)
          (taskKey t) hkey
      simp only [taskRenumber, h, if_true]
      rw [hr]
    · exact taskRenumber_fix db sid t (by simpa using h)
  rw [List.map_congr_left hid, List.map_id']

/-! Filter plumbing used by the delete paths. -/

theorem filter_filter_keep {α : Type} (l : List α) (p q : α → Bool)
    (h : ∀ a ∈ l, p a = true → q a = true) :
    (l.filter q).filter p = l.filter p := by
  rw [List.filter_filter]
  apply List.filter_congr
  intro a ha
  cases hpa : p a with
  | false => simp
  | true => simp [h a ha hpa]

theorem nextSort_dense (l : List Nat) (hd : denseList l) : nextSort l = l.length + 1 := by
  cases hl : l with
  | nil => rfl
  | cons x xs =>
    rw [← hl]
    unfold nextSort
    rw [listMax_of_dense l (by rw [hl]; simp) hd]

theorem inv_empty : Inv emptyDb where
  secNodup := by simp [emptyDb]
  taskNodup := by simp [emptyDb]
  secFresh := by intro i hi; simp [emptyDb] at hi
  taskFresh := by intro i hi; simp [emptyDb] at hi
  secDense := fun u => denseList_nil
  taskDense := fun sid => denseList_nil

theorem scope_ids_nodup_sec (db : Db) (u : Nat)
    (h : (db.sections.map (fun s => s.id)).Nodup) :
    ((secScope db u).map (fun s => s.id)).Nodup :=
  List.Nodup.sublist (List.Sublist.map _ (List.filter_sublist _)) h

theorem scope_ids_nodup_task (db : Db) (sid : Nat)
    (h : (db.tasks.map (fun t => t.id)).Nodup) :
    ((taskScope db sid).map (fun t => t.id)).Nodup :=
  List.Nodup.sublist (List.Sublist.map _ (List.filter_sublist _)) h

theorem createSection_sections (db : Db) (u : Nat) (title : String) :
    (createSection db u title).2.sections = db.sections ++ [newSectionRow db u title] := rfl

theorem createSection_tasks (db : Db) (u : Nat) (title : String) :
    (createSection db u title).2.tasks = db.tasks := rfl

theorem createSection_counters (db : Db) (u : Nat) (title : String) :
    (createSection db u title).2.nextSectionId = db.nextSectionId + 1 ∧
      (createSection db u title).2.nextTaskId = db.nextTaskId := ⟨rfl, rfl⟩

theorem secScope_createSection_self (db : Db) (u : Nat) (title : String) :
    secScope (createSection db u title).2 u = secScope db u ++ [newSectionRow db u title] := by
  unfold secScope
  rw [createSection_sections, List.filter_append]
  congr 1
  simp [newSectionRow]

theorem secScope_createSection_other (db : Db) (u u0 : Nat) (title : String) (hu : u0 ≠ u) :
    secScope (createSection db u title).2 u0 = secScope db u0 := by
  unfold secScope
  rw [createSection_sections, List.filter_append]
  have hnil : [newSectionRow db u title].filter (fun s => s.userId == u0) = [] := by
    simp [newSectionRow]
    exact fun h => hu h.symm
  rw [hnil, List.append_nil]

theorem inv_createSection (db : Db) (u : Nat) (title : String) (hinv : Inv db) :
    Inv (createSection db u title).2 := by
  constructor
  · rw [createSection_sections, List.map_append]
    apply List.Nodup.append hinv.secNodup (List.nodup_singleton _)
    intro a ha hb
    have hlt := hinv.secFresh a ha
    have hab : a = db.nextSectionId := by simpa [newSectionRow] using hb
    omega
  · rw [createSection_tasks]
    exact hinv.taskNodup
  · intro i hi
    rw [createSection_sections, List.map_append] at hi
    rw [(createSection_counters db u title).1]
    rcases List.mem_append.mp hi with hi | hi
    · have := hinv.secFresh i hi
      omega
    · have : i = db.nextSectionId := by simpa [newSectionRow] using hi
      omega
  · intro i hi
    rw [createSection_tasks] at hi
    rw [(createSection_counters db u title).2]
    exact hinv.taskFresh i hi
  · intro u0
    by_cases hu : u0 = u
    · subst hu
      have hranks : secRanks (createSection db u0 title).2 u0
          = secRanks db u0 ++ [nextSort (secRanks db u0)] := by
        unfold secRanks
        rw [secScope_createSection_self, List.map_append]
        rfl
      rw [hranks, nextSort_dense _ (hinv.secDense u0)]
      exact denseList_append_succ _ (hinv.secDense u0)
    · have hranks : secRanks (createSection db u title).2 u0 = secRanks db u0 := by
        unfold secRanks
        rw [secScope_createSection_other db u u0 title hu]
      rw [hranks]
      exact hinv.secDense u0
  · intro sid
    have hranks : taskRanks (createSection db u title).2 sid = taskRanks db sid := by
      unfold taskRanks taskScope
      rw [createSection_tasks]
    rw [hranks]
    exact hinv.taskDense sid

theorem createTask_sections (db : Db) (input : CreateTaskInput) :
    (createTask db input).2.sections = db.sections := by
  unfold createTask
  by_cases hex : sectionExists db input.sectionId = true
  · rw [if_pos hex]
  · rw [if_neg hex]

theorem createTask_nextSectionId (db : Db) (input : CreateTaskInput) :
    (createTask db input).2.nextSectionId = db.nextSectionId := by
  unfold createTask
  by_cases hex : sectionExists db input.sectionId = true
  · rw [if_pos hex]
  · rw [if_neg hex]

theorem createTask_tasks_of_exists (db : Db) (input : CreateTaskInput)
    (hex : sectionExists db input.sectionId = true) :
    (createTask db input).2.tasks = db.tasks ++ [newTaskRow db input] := by
  unfold createTask
  rw [if_pos hex]
  rfl

theorem createTask_nextTaskId_of_exists (db : Db) (input : CreateTaskInput)
    (hex : sectionExists db input.sectionId = true) :
    (createTask db input).2.nextTaskId = db.nextTaskId + 1 := by
  unfold createTask
  rw [if_pos hex]

theorem createTask_db_of_missing (db : Db) (input : CreateTaskInput)
    (hex : sectionExists db input.sectionId = false) :
    (createTask db input).2 = db := by
  unfold createTask
  rw [hex]
  rfl

theorem taskScope_createTask_self (db : Db) (input : CreateTaskInput)
    (hex : sectionExists db input.sectionId = true) :
    taskScope (createTask db input).2 input.sectionId
      = taskScope db input.sectionId ++ [newTaskRow db input] := by
  unfold taskScope
  rw [createTask_tasks_of_exists db input hex, List.filter_append]
  congr 1
  simp [newTaskRow]

theorem taskScope_createTask_other (db : Db) (input : CreateTaskInput) (sid0 : Nat)
    (hex : sectionExists db input.sectionId = true) (hs : sid0 ≠ input.sectionId) :
    taskScope (createTask db input).2 sid0 = taskScope db sid0 := by
  unfold taskScope
  rw [createTask_tasks_of_exists db input hex, List.filter_append]
  have hnil : [newTaskRow db input].filter (fun t => t.sectionId == sid0) = [] := by
    simp [newTaskRow]
    exact fun h => hs h.symm
  rw [hnil, List.append_nil]

theorem inv_createTask (db : Db) (input : CreateTaskInput) (hinv : Inv db) :
    Inv (createTask db input).2 := by
  by_cases hex : sectionExists db input.sectionId = true
  · constructor
    · rw [createTask_sections]
      exact hinv.secNodup
    · rw [createTask_tasks_of_exists db input hex, List.map_append]
      apply List.Nodup.append hinv.taskNodup (List.nodup_singleton _)
      intro a ha hb
      have hlt := hinv.taskFresh a ha
      have hab : a = db.nextTaskId := by simpa [newTaskRow] using hb
      omega
    · intro i hi
      rw [createTask_sections] at hi
      rw [createTask_nextSectionId]
      exact hinv.secFresh i hi
    · intro i hi
      rw [createTask_tasks_of_exists db input hex, List.map_append] at hi
      rw [createTask_nextTaskId_of_exists db input hex]
      rcases List.mem_append.mp hi with hi | hi
      · have := hinv.taskFresh i hi
        omega
      · have : i = db.nextTaskId := by simpa [newTaskRow] using hi
        omega
    · intro u0
      have hranks : secRanks (createTask db input).2 u0 = secRanks db u0 := by
        unfold secRanks secScope
        rw [createTask_sections]
      rw [hranks]
      exact hinv.secDense u0
    · intro sid0
      by_cases hs : sid0 = input.sectionId
      · subst hs
        have hranks : taskRanks (createTask db input).2 input.sectionId
            = taskRanks db input.sectionId ++ [nextSort (taskRanks db input.sectionId)] := by
          unfold taskRanks
          rw [taskScope_createTask_self db input hex, List.map_append]
          rfl
        rw [hranks, nextSort_dense _ (hinv.taskDense input.sectionId)]
        exact denseList_append_succ _ (hinv.taskDense input.sectionId)
      · have hranks : taskRanks (createTask db input).2 sid0 = taskRanks db sid0 := by
          unfold taskRanks
          rw [taskScope_createTask_other db input sid0 hex hs]
        rw [hranks]
        exact hinv.taskDense sid0
  · have hex2 : sectionExists db input.sectionId = false := by
      simpa using hex
    rw [createTask_db_of_missing db input hex2]
    exact hinv

theorem deleteSection_noop (db : Db) (u sid : Nat) (df rf : Bool)
    (h : ¬ db.sections.any (fun s => s.id == sid && s.userId == u) = true) :
    deleteSection db u sid df rf = (.notFoundOrForbidden, db) := by
  unfold deleteSection
  rw [if_neg h]

theorem deleteSection_success (db : Db) (u sid : Nat)
    (h : db.sections.any (fun s => s.id == sid && s.userId == u) = true) :
    deleteSection db u sid false false
      = (.deleted, compactSections (delSectionDb db u sid) u) := by
  unfold deleteSection
  rw [if_pos h]
  rfl

theorem secScope_delSection_other (db : Db) (u sid u0 : Nat) (hu : u0 ≠ u) :
    secScope (delSectionDb db u sid) u0 = secScope db u0 := by
  unfold secScope delSectionDb
  apply filter_filter_keep
  intro a _ hpa
  have ha0 : a.userId = u0 := by simpa using hpa
  have hfa : (a.userId == u) = false := by
    rw [ha0]
    exact beq_eq_false_iff_ne.mpr hu
  simp [hfa]

theorem taskScope_delSection_self (db : Db) (u sid : Nat) :
    taskScope (delSectionDb db u sid) sid = [] := by
  unfold taskScope delSectionDb
  rw [List.filter_filter]
  rw [List.filter_eq_nil_iff]
  intro a _
  cases h : a.sectionId == sid <;> simp [h]

theorem taskScope_delSection_other (db : Db) (u sid sid0 : Nat) (hs : sid0 ≠ sid) :
    taskScope (delSectionDb db u sid) sid0 = taskScope db sid0 := by
  unfold taskScope delSectionDb
  apply filter_filter_keep
  intro a _ hpa
  have ha0 : a.sectionId = sid0 := by simpa using hpa
  have hfa : (a.sectionId == sid) = false := by
    rw [ha0]
    exact beq_eq_false_iff_ne.mpr hs
  simp [hfa]

theorem inv_deleteSection (db : Db) (u sid : Nat) (hinv : Inv db) :
    Inv (deleteSection db u sid false false).2 := by
  by_cases hex : db.sections.any (fun s => s.id == sid && s.userId == u) = true
  · have hres : (deleteSection db u sid false false).2
        = compactSections (delSectionDb db u sid) u := by
      rw [deleteSection_success db u sid hex]
    rw [hres]
    have hsubS : (delSectionDb db u sid).sections.Sublist db.sections :=
      List.filter_sublist _
    have hsubT : (delSectionDb db u sid).tasks.Sublist db.tasks :=
      List.filter_sublist _
    have h1nodup : ((delSectionDb db u sid).sections.map (fun s => s.id)).Nodup :=
      List.Nodup.sublist (List.Sublist.map _ hsubS) hinv.secNodup
    have h1tnodup : ((delSectionDb db u sid).tasks.map (fun t => t.id)).Nodup :=
      List.Nodup.sublist (List.Sublist.map _ hsubT) hinv.taskNodup
    constructor
    · rw [compactSections_ids]
      exact h1nodup
    · rw [show (compactSections (delSectionDb db u sid) u).tasks
          = (delSectionDb db u sid).tasks from rfl]
      exact h1tnodup
    · intro i hi
      rw [compactSections_ids] at hi
      have hmem : i ∈ db.sections.map (fun s => s.id) :=
        (List.Sublist.map _ hsubS).subset hi
      exact hinv.secFresh i hmem
    · intro i hi
      have hmem : i ∈ db.tasks.map (fun t => t.id) :=
        (List.Sublist.map _ hsubT).subset hi
      exact hinv.taskFresh i hmem
    · intro u0
      by_cases hu : u0 = u
      · subst hu
        exact compactSections_dense (delSectionDb db u0 sid) u0
          (scope_ids_nodup_sec _ _ h1nodup)
      · have hranks : secRanks (compactSections (delSectionDb db u sid) u) u0
            = secRanks db u0 := by
          unfold secRanks
          rw [secScope_compact_other _ _ _ hu, secScope_delSection_other db u sid u0 hu]
        rw [hranks]
        exact hinv.secDense u0
    · intro sid0
      have htasks : taskRanks (compactSections (delSectionDb db u sid) u) sid0
          = taskRanks (delSectionDb db u sid) sid0 := rfl
      rw [htasks]
      by_cases hs : sid0 = sid
      · subst hs
        unfold taskRanks
        rw [taskScope_delSection_self]
        exact denseList_nil
      · unfold taskRanks
        rw [taskScope_delSection_other db u sid sid0 hs]
        exact hinv.taskDense sid0
  · rw [deleteSection_noop db u sid false false hex]
    exact hinv

theorem deleteTask_noop (db : Db) (tid : Nat) (df rf : Bool)
    (h : db.tasks.find? (fun t => t.id == tid) = none) :
    deleteTask db tid df rf = (.invalidTaskId, db) := by
  unfold deleteTask
  rw [h]

theorem deleteTask_success (db : Db) (tid : Nat) (t : TaskRow)
    (h : db.tasks.find? (fun x => x.id == tid) = some t) :
    deleteTask db tid false false = (.deleted, compactTasks (delTaskDb db tid) t.sectionId) := by
  unfold deleteTask
  rw [h]
  rfl

theorem taskScope_delTask_other (db : Db) (tid sid0 : Nat) (t : TaskRow)
    (ht : t ∈ db.tasks) (htid : t.id = tid)
    (hnd : (db.tasks.map (fun x => x.id)).Nodup) (hs : sid0 ≠ t.sectionId) :
    taskScope (delTaskDb db tid) sid0 = taskScope db sid0 := by
  unfold taskScope delTaskDb
  apply filter_filter_keep
  intro a ha hpa
  have ha0 : a.sectionId = sid0 := by simpa using hpa
  have hfa : (a.id == tid) = false := by
    apply beq_eq_false_iff_ne.mpr
    intro hcontra
    have hat : a = t := List.inj_on_of_nodup_map hnd ha ht (by rw [hcontra, htid])
    rw [hat] at ha0
    exact hs ha0.symm
  simp [hfa]

theorem inv_deleteTask (db : Db) (tid : Nat) (hinv : Inv db) :
    Inv (deleteTask db tid false false).2 := by
  cases hfind : db.tasks.find? (fun x => x.id == tid) with
  | none =>
    rw [deleteTask_noop db tid false false hfind]
    exact hinv
  | some t =>
    have ht : t ∈ db.tasks := List.mem_of_find?_eq_some hfind
    have htid : t.id = tid := by
      have := List.find?_some hfind
      simpa using this
    have hres : (deleteTask db tid false false).2
        = compactTasks (delTaskDb db tid) t.sectionId := by
      rw [deleteTask_success db tid t hfind]
    rw [hres]
    have hsubT : (delTaskDb db tid).tasks.Sublist db.tasks := List.filter_sublist _
    have h1tnodup : ((delTaskDb db tid).tasks.map (fun x => x.id)).Nodup :=
      List.Nodup.sublist (List.Sublist.map _ hsubT) hinv.taskNodup
    constructor
    · rw [show (compactTasks (delTaskDb db tid) t.sectionId).sections = db.sections from rfl]
      exact hinv.secNodup
    · rw [compactTasks_ids]
      exact h1tnodup
    · intro i hi
      rw [show (compactTasks (delTaskDb db tid) t.sectionId).sections = db.sections from rfl] at hi
      exact hinv.secFresh i hi
    · intro i hi
      rw [compactTasks_ids] at hi
      have hmem : i ∈ db.tasks.map (fun x => x.id) :=
        (List.Sublist.map _ hsubT).subset hi
      exact hinv.taskFresh i hmem
    · intro u0
      have hranks : secRanks (compactTasks (delTaskDb db tid) t.sectionId) u0
          = secRanks db u0 := rfl
      rw [hranks]
      exact hinv.secDense u0
    · intro sid0
      by_cases hs : sid0 = t.sectionId
      · subst hs
        exact compactTasks_dense (delTaskDb db tid) t.sectionId
          (scope_ids_nodup_task _ _ h1tnodup)
      · have hranks : taskRanks (compactTasks (delTaskDb db tid) t.sectionId) sid0
            = taskRanks db sid0 := by
          unfold taskRanks
          rw [taskScope_compact_other _ _ _ hs,
            taskScope_delTask_other db tid sid0 t ht htid hinv.taskNodup hs]
        rw [hranks]
        exact hinv.taskDense sid0

theorem inv_applyOp (db : Db) (op : Op) (hinv : Inv db) : Inv (applyOp db op) := by
  cases op with
  | createSection u t => exact inv_createSection db u t hinv
  | deleteSection u sid => exact inv_deleteSection db u sid hinv
  | createTask input => exact inv_createTask db input hinv
  | deleteTask tid => exact inv_deleteTask db tid hinv

theorem inv_foldl (ops : List Op) (db : Db) (hinv : Inv db) :
    Inv (ops.foldl applyOp db) := by
  induction ops generalizing db with
  | nil => exact hinv
  | cons op rest ih => exact ih (applyOp db op) (inv_applyOp db op hinv)

theorem inv_runOps (ops : List Op) : Inv (runOps ops) :=
  inv_foldl ops emptyDb inv_empty

/-! Claim theorems. -/

/-- C1: replaying any finite sequence of CreateSection, DeleteSection,
CreateTask and DeleteTask operations (their compaction steps included)
from the empty store leaves every scope dense: the sort_order values of
each user's sections, and of each section's tasks, are a permutation of
1..count of that scope — no gaps, no duplicates. -/
theorem density_after_any_op_sequence (ops : List Op) :
    (∀ u, (secRanks (runOps ops) u).Perm
        (List.range' 1 (secScope (runOps ops) u).length)) ∧
    (∀ sid, (taskRanks (runOps ops) sid).Perm
        (List.range' 1 (taskScope (runOps ops) sid).length)) := by
  have hinv := inv_runOps ops
  constructor
  · intro u
    have h := hinv.secDense u
    rw [denseList] at h
    have hlen : (secRanks (runOps ops) u).length = (secScope (runOps ops) u).length :=
      List.length_map _ _
    rw [hlen] at h
    exact h
  · intro sid
    have h := hinv.taskDense sid
    rw [denseList] at h
    have hlen : (taskRanks (runOps ops) sid).length = (taskScope (runOps ops) sid).length :=
      List.length_map _ _
    rw [hlen] at h
    exact h

/-- C6: on a scope whose ranks are already dense, the delete-compaction
renumbering (the @rank re-numbering of a user's sections, respectively the
ROW_NUMBER re-numbering of a section's tasks) changes nothing at all, so
running it twice in a row equals running it once. -/
theorem compaction_idempotent_on_dense (db : Db) (u sid : Nat)
    (h1 : denseList (secRanks db u)) (h2 : denseList (taskRanks db sid)) :
    compactSections db u = db ∧ compactTasks db sid = db ∧
      compactSections (compactSections db u) u = compactSections db u ∧
      compactTasks (compactTasks db sid) sid = compactTasks db sid := by
  have hs := compactSections_dense_noop db u h1
  have ht := compactTasks_dense_noop db sid h2
  refine ⟨hs, ht, ?_, ?_⟩
  · rw [hs, hs]
  · rw [ht, ht]

theorem compaction_idempotent_on_dense_witness :
    denseList (secRanks dbA 1) ∧ denseList (taskRanks dbA 1) ∧
      (compactSections dbA 1 = dbA ∧ compactTasks dbA 1 = dbA ∧
        compactSections (compactSections dbA 1) 1 = compactSections dbA 1 ∧
        compactTasks (compactTasks dbA 1) 1 = compactTasks dbA 1) :=
  ⟨by decide, by decide, compaction_idempotent_on_dense dbA 1 1 (by decide) (by decide)⟩

theorem createTask_resp_of_exists (db : Db) (input : CreateTaskInput)
    (hex : sectionExists db input.sectionId = true) :
    (createTask db input).1 = .created (newTaskRow db input) := by
  unfold createTask
  rw [if_pos hex]
  rfl

/-- C5: a successful CreateSection or CreateTask assigns the created
entity the rank max(sort_order) + 1 over the existing members of its
scope — 1 when the scope is empty — persists a row carrying that rank,
and returns the entity with it. -/
theorem create_rank_is_max_succ (db : Db) (u : Nat) (title : String)
    (input : CreateTaskInput) (hsec : sectionExists db input.sectionId = true) :
    (secRanks db u = [] → (createSection db u title).1.sort = 1) ∧
    (secRanks db u ≠ [] →
      ∃ m, m ∈ secRanks db u ∧ (∀ r ∈ secRanks db u, r ≤ m) ∧
        (createSection db u title).1.sort = m + 1) ∧
    (∃ s ∈ (createSection db u title).2.sections,
      s.id = (createSection db u title).1.id ∧ s.userId = u ∧ s.title = title ∧
        s.sortOrder = (createSection db u title).1.sort) ∧
    (taskRanks db input.sectionId = [] →
      ∃ row, (createTask db input).1 = .created row ∧ row.sortOrder = 1 ∧
        row.sectionId = input.sectionId ∧ row ∈ (createTask db input).2.tasks) ∧
    (taskRanks db input.sectionId ≠ [] →
      ∃ m row, m ∈ taskRanks db input.sectionId ∧
        (∀ r ∈ taskRanks db input.sectionId, r ≤ m) ∧
        (createTask db input).1 = .created row ∧ row.sortOrder = m + 1 ∧
        row.sectionId = input.sectionId ∧ row ∈ (createTask db input).2.tasks) := by
  have hsort : (createSection db u title).1.sort = nextSort (secRanks db u) := rfl
  have htrow : newTaskRow db input ∈ (createTask db input).2.tasks := by
    rw [createTask_tasks_of_exists db input hsec]
    exact List.mem_append.mpr (Or.inr (List.mem_singleton_self _))
  refine ⟨?_, ?_, ?_, ?_, ?_⟩
  · intro hemp
    rw [hsort, hemp]
    rfl
  · intro hne
    cases hm : listMax (secRanks db u) with
    | none => exact absurd ((listMax_eq_none _).mp hm) hne
    | some m =>
      obtain ⟨hmem, hall⟩ := listMax_spec _ m hm
      refine ⟨m, hmem, hall, ?_⟩
      rw [hsort]
      unfold nextSort
      rw [hm]
  · refine ⟨newSectionRow db u title, ?_, rfl, rfl, rfl, rfl⟩
    rw [createSection_sections]
    exact List.mem_append.mpr (Or.inr (List.mem_singleton_self _))
  · intro hemp
    refine ⟨newTaskRow db input, createTask_resp_of_exists db input hsec, ?_, rfl, htrow⟩
    show nextSort (taskRanks db input.sectionId) = 1
    rw [hemp]
    rfl
  · intro hne
    cases hm : listMax (taskRanks db input.sectionId) with
    | none => exact absurd ((listMax_eq_none _).mp hm) hne
    | some m =>
      obtain ⟨hmem, hall⟩ := listMax_spec _ m hm
      refine ⟨m, newTaskRow db input, hmem, hall,
        createTask_resp_of_exists db input hsec, ?_, rfl, htrow⟩
      show nextSort (taskRanks db input.sectionId) = m + 1
      unfold nextSort
      rw [hm]

theorem create_rank_is_max_succ_witness :
    sectionExists dbA 1 = true ∧ secRanks dbA 1 ≠ [] ∧
      (∃ m, m ∈ secRanks dbA 1 ∧ (∀ r ∈ secRanks dbA 1, r ≤ m) ∧
        (createSection dbA 1 "n").1.sort = m + 1) := by
  have h := create_rank_is_max_succ dbA 1 "n" ⟨1, "v", "w"⟩ (by decide)
  exact ⟨by decide, by decide, h.2.1 (by decide)⟩

/-- C7: UpdateSection and DeleteSection against a target section that is
missing or owned by another user both answer with the single merged
notFoundOrForbidden outcome — the same value for either cause, so the
caller cannot tell them apart — and the store is returned unchanged. -/
theorem section_notfound_forbidden_merged (db : Db) (u sid : Nat) (title : String)
    (h : ∀ s ∈ db.sections, ¬ (s.id = sid ∧ s.userId = u)) :
    (∀ ef, updateSection db u sid title ef = (.notFoundOrForbidden, db)) ∧
    (∀ df rf, deleteSection db u sid df rf = (.notFoundOrForbidden, db)) := by
  have hcond : ¬ db.sections.any (fun s => s.id == sid && s.userId == u) = true := by
    rw [List.any_eq_true]
    rintro ⟨s, hs, hp⟩
    have hp2 : s.id = sid ∧ s.userId = u := by
      simpa using hp
    exact h s hs hp2
  constructor
  · intro ef
    unfold updateSection
    rw [if_neg hcond]
  · intro df rf
    unfold deleteSection
    rw [if_neg hcond]

theorem section_notfound_forbidden_merged_witness :
    (∀ s ∈ dbA.sections, ¬ (s.id = 1 ∧ s.userId = 2)) ∧
      updateSection dbA 2 1 "z" false = (.notFoundOrForbidden, dbA) ∧
      deleteSection dbA 2 1 false false = (.notFoundOrForbidden, dbA) := by
  have h := section_notfound_forbidden_merged dbA 2 1 "z" (by decide)
  exact ⟨by decide, h.1 false, h.2 false false⟩

/-- C8: when the delete itself succeeds and the follow-up compaction
fails, DeleteSection and DeleteTask answer with the dedicated
reorderFailed outcome — a value distinct from the failed-delete
outcome — the deleted row stays deleted, and the surviving rows are
exactly the old rows (pre-compaction, possibly sparse ranks). -/
theorem delete_reorder_failure_semantics (db : Db) (u sid tid : Nat)
    (hsec : db.sections.any (fun s => s.id == sid && s.userId == u) = true)
    (htask : ∃ t, db.tasks.find? (fun x => x.id == tid) = some t) :
    ((deleteSection db u sid false true).1 = .reorderFailed ∧
      DeleteSectionResp.reorderFailed ≠ DeleteSectionResp.deleteFailed ∧
      (deleteSection db u sid false true).2.sections
        = db.sections.filter (fun s => !(s.id == sid && s.userId == u)) ∧
      (deleteSection db u sid false true).2.tasks
        = db.tasks.filter (fun t => !(t.sectionId == sid)) ∧
      ∀ s ∈ (deleteSection db u sid false true).2.sections,
        ¬ (s.id = sid ∧ s.userId = u)) ∧
    ((deleteTask db tid false true).1 = .reorderFailed ∧
      DeleteTaskResp.reorderFailed ≠ DeleteTaskResp.deleteFailed ∧
      (deleteTask db tid false true).2.tasks
        = db.tasks.filter (fun x => !(x.id == tid)) ∧
      (deleteTask db tid false true).2.sections = db.sections ∧
      ∀ x ∈ (deleteTask db tid false true).2.tasks, x.id ≠ tid) := by
  obtain ⟨t, hfind⟩ := htask
  have hsec2 : deleteSection db u sid false true = (.reorderFailed, delSectionDb db u sid) := by
    unfold deleteSection
    rw [if_pos hsec]
    rfl
  have htask2 : deleteTask db tid false true = (.reorderFailed, delTaskDb db tid) := by
    unfold deleteTask
    rw [hfind]
    rfl
  rw [hsec2, htask2]
  refine ⟨⟨rfl, by decide, rfl, rfl, ?_⟩, ⟨rfl, by decide, rfl, rfl, ?_⟩⟩
  · intro s hs
    have hp := (List.mem_filter.mp hs).2
    simp only [Bool.not_eq_eq_eq_not, Bool.not_true, Bool.and_eq_false_imp,
      beq_iff_eq] at hp
    rintro ⟨h1, h2⟩
    exact absurd (hp h1) (by simpa using h2)
  · intro x hx
    have hp := (List.mem_filter.mp hx).2
    simpa using hp

theorem delete_reorder_failure_semantics_witness :
    (deleteSection dbA 1 2 false true).1 = .reorderFailed ∧
      (deleteTask dbA 1 false true).1 = .reorderFailed := by
  have h := delete_reorder_failure_semantics dbA 1 2 1 (by decide)
    ⟨⟨1, 1, "t", "x", false, 1⟩, by decide⟩
  exact ⟨h.1.1, h.2.1⟩

/-! Batch reorder machinery. -/

theorem sectionOwnedBy_iff (db : Db) (sid u : Nat) :
    sectionOwnedBy db sid u ↔ (sid, u) ∈ db.sections.map (fun s => (s.id, s.userId)) := by
  constructor
  · rintro ⟨r, hr, h1, h2⟩
    have hm := List.mem_map_of_mem (fun s => (s.id, s.userId)) hr
    simpa [h1, h2] using hm
  · intro h
    obtain ⟨r, hr, heq⟩ := List.mem_map.mp h
    have h1 : r.id = sid := congrArg Prod.fst heq
    have h2 : r.userId = u := congrArg Prod.snd heq
    exact ⟨r, hr, h1, h2⟩

theorem taskExists_iff (db : Db) (tid : Nat) :
    taskExists db tid ↔ tid ∈ db.tasks.map (fun t => t.id) := by
  constructor
  · rintro ⟨t, ht, h1⟩
    have hm := List.mem_map_of_mem (fun t => t.id) ht
    simpa [h1] using hm
  · intro h
    obtain ⟨t, ht, heq⟩ := List.mem_map.mp h
    exact ⟨t, ht, heq⟩

theorem updSectionSort_tasks (db : Db) (sid i : Nat) :
    (updSectionSort db sid i).tasks = db.tasks := rfl

theorem updSectionSort_proj (db : Db) (sid i : Nat) :
    (updSectionSort db sid i).sections.map (fun s => (s.id, s.userId))
      = db.sections.map (fun s => (s.id, s.userId)) := by
  show (db.sections.map _).map _ = _
  rw [List.map_map]
  apply List.map_congr_left
  intro a _
  by_cases h : (a.id == sid) = true <;> simp [Function.comp, h]

theorem updSectionSort_hit (db : Db) (sid i : Nat) :
    ∀ s ∈ (updSectionSort db sid i).sections, s.id = sid → s.sortOrder = i := by
  intro s hs hid
  obtain ⟨a, _, rfl⟩ := List.mem_map.mp hs
  by_cases h : (a.id == sid) = true
  · simp [h]
  · rw [if_neg h] at hid ⊢
    exact absurd hid (by simpa using h)

theorem updSectionSort_frame (db : Db) (sid i x : Nat) (hx : x ≠ sid) :
    (updSectionSort db sid i).sections.filter (fun s => s.id == x)
      = db.sections.filter (fun s => s.id == x) := by
  show (db.sections.map _).filter _ = _
  apply filter_map_fixed
  · intro a _ hpa
    have ha : a.id = x := by simpa using hpa
    have h : (a.id == sid) = false := by
      rw [ha]
      exact beq_eq_false_iff_ne.mpr hx
    simp [h]
  · intro a _
    by_cases h : (a.id == sid) = true <;> simp [h]

theorem updTask_sections (db : Db) (tid sid p : Nat) :
    (updTask db tid sid p).sections = db.sections := rfl

theorem updTask_ids (db : Db) (tid sid p : Nat) :
    (updTask db tid sid p).tasks.map (fun t => t.id) = db.tasks.map (fun t => t.id) := by
  show (db.tasks.map _).map _ = _
  rw [List.map_map]
  apply List.map_congr_left
  intro a _
  by_cases h : (a.id == tid) = true <;> simp [Function.comp, h]

theorem updTask_hit (db : Db) (tid sid p : Nat) :
    ∀ t ∈ (updTask db tid sid p).tasks, t.id = tid →
      t.sectionId = sid ∧ t.sortOrder = p := by
  intro t ht hid
  obtain ⟨a, _, rfl⟩ := List.mem_map.mp ht
  by_cases h : (a.id == tid) = true
  · simp [h]
  · rw [if_neg h] at hid ⊢
    exact absurd hid (by simpa using h)

theorem updTask_frame (db : Db) (tid sid p x : Nat) (hx : x ≠ tid) :
    (updTask db tid sid p).tasks.filter (fun t => t.id == x)
      = db.tasks.filter (fun t => t.id == x) := by
  show (db.tasks.map _).filter _ = _
  apply filter_map_fixed
  · intro a _ hpa
    have ha : a.id = x := by simpa using hpa
    have h : (a.id == tid) = false := by
      rw [ha]
      exact beq_eq_false_iff_ne.mpr hx
    simp [h]
  · intro a _
    by_cases h : (a.id == tid) = true <;> simp [h]

theorem runTasks_ok_elim (sid p0 : Nat) (tids : List Nat) (db : Db) (k : Nat)
    (oracle : Nat → Bool) (db2 : Db) (k2 : Nat)
    (h : runTasks sid p0 tids db k oracle = .ok (db2, k2)) :
    (∀ tid ∈ tids, taskExists db tid) ∧
    db2.sections = db.sections ∧
    db2.tasks.map (fun t => t.id) = db.tasks.map (fun t => t.id) := by
  induction tids generalizing p0 db k with
  | nil =>
    simp only [runTasks, Except.ok.injEq, Prod.mk.injEq] at h
    obtain ⟨hdb, _⟩ := h
    subst hdb
    exact ⟨by simp, rfl, rfl⟩
  | cons tid rest ih =>
    simp only [runTasks] at h
    by_cases hf : (db.tasks.find? (fun t => t.id == tid)).isSome = true
    · rw [if_pos hf] at h
      by_cases ho : oracle k = true
      · rw [if_pos ho] at h
        simp at h
      · rw [if_neg ho] at h
        obtain ⟨hext, hsec, hids⟩ := ih (p0 + 1) (updTask db tid sid p0) (k + 1) h
        refine ⟨?_, ?_, ?_⟩
        · intro x hx
          rcases List.mem_cons.mp hx with rfl | hx
          · obtain ⟨t, hfind⟩ := Option.isSome_iff_exists.mp hf
            exact ⟨t, List.mem_of_find?_eq_some hfind, by simpa using List.find?_some hfind⟩
          · have hx2 := hext x hx
            rw [taskExists_iff] at hx2 ⊢
            rwa [updTask_ids] at hx2
        · rw [hsec, updTask_sections]
        · rw [hids, updTask_ids]
    · rw [if_neg hf] at h
      simp at h

theorem runTasks_frame (sid p0 : Nat) (tids : List Nat) (db : Db) (k : Nat)
    (oracle : Nat → Bool) (db2 : Db) (k2 : Nat)
    (h : runTasks sid p0 tids db k oracle = .ok (db2, k2)) (x : Nat) (hx : x ∉ tids) :
    db2.tasks.filter (fun t => t.id == x) = db.tasks.filter (fun t => t.id == x) := by
  induction tids generalizing p0 db k with
  | nil =>
    simp only [runTasks, Except.ok.injEq, Prod.mk.injEq] at h
    rw [← h.1]
  | cons tid rest ih =>
    simp only [runTasks] at h
    by_cases hf : (db.tasks.find? (fun t => t.id == tid)).isSome = true
    · rw [if_pos hf] at h
      by_cases ho : oracle k = true
      · rw [if_pos ho] at h
        simp at h
      · rw [if_neg ho] at h
        have hxr : x ∉ rest := fun hc => hx (List.mem_cons_of_mem _ hc)
        have hxt : x ≠ tid := fun hc => hx (hc ▸ List.mem_cons_self _ _)
        rw [ih (p0 + 1) (updTask db tid sid p0) (k + 1) h hxr,
          updTask_frame db tid sid p0 x hxt]
    · rw [if_neg hf] at h
      simp at h

theorem runTasks_hit (sid p0 : Nat) (tids : List Nat) (db : Db) (k : Nat)
    (oracle : Nat → Bool) (db2 : Db) (k2 : Nat)
    (h : runTasks sid p0 tids db k oracle = .ok (db2, k2)) (hnd : tids.Nodup) :
    ∀ j (hj : j < tids.length), ∀ t ∈ db2.tasks, t.id = tids.get ⟨j, hj⟩ →
      t.sectionId = sid ∧ t.sortOrder = p0 + j := by
  induction tids generalizing p0 db k with
  | nil =>
    intro j hj
    simp at hj
  | cons tid rest ih =>
    simp only [runTasks] at h
    by_cases hf : (db.tasks.find? (fun t => t.id == tid)).isSome = true
    · rw [if_pos hf] at h
      by_cases ho : oracle k = true
      · rw [if_pos ho] at h
        simp at h
      · rw [if_neg ho] at h
        intro j hj t ht hid
        cases j with
        | zero =>
          have hrest : tid ∉ rest := (List.nodup_cons.mp hnd).1
          have hfr := runTasks_frame sid (p0 + 1) rest (updTask db tid sid p0) (k + 1)
            oracle db2 k2 h tid hrest
          have hid0 : t.id = tid := hid
          have htf : t ∈ db2.tasks.filter (fun s => s.id == tid) :=
            List.mem_filter.mpr ⟨ht, by simpa using hid0⟩
          rw [hfr] at htf
          have ht1 : t ∈ (updTask db tid sid p0).tasks := (List.mem_filter.mp htf).1
          have hh := updTask_hit db tid sid p0 t ht1 hid0
          exact ⟨hh.1, by omega⟩
        | succ j0 =>
          have hr := ih (p0 + 1) (updTask db tid sid p0) (k + 1) h
            (List.nodup_cons.mp hnd).2 j0 (by simpa using hj) t ht (by simpa using hid)
          exact ⟨hr.1, by omega⟩
    · rw [if_neg hf] at h
      simp at h

theorem runTasks_ok_of_checks (sid p0 : Nat) (tids : List Nat) (db : Db) (k : Nat)
    (hext : ∀ tid ∈ tids, taskExists db tid) :
    ∃ r, runTasks sid p0 tids db k (fun _ => false) = .ok r := by
  induction tids generalizing p0 db k with
  | nil => exact ⟨(db, k), rfl⟩
  | cons tid rest ih =>
    have h1 : (db.tasks.find? (fun t => t.id == tid)).isSome = true := by
      obtain ⟨t, ht, hid⟩ := hext tid (List.mem_cons_self _ _)
      rw [List.find?_isSome]
      exact ⟨t, ht, by simpa using hid⟩
    have hrest : ∀ x ∈ rest, taskExists (updTask db tid sid p0) x := by
      intro x hx
      have hx2 := hext x (List.mem_cons_of_mem _ hx)
      rw [taskExists_iff] at hx2 ⊢
      rwa [updTask_ids]
    obtain ⟨r, hr⟩ := ih (p0 + 1) (updTask db tid sid p0) (k + 1) hrest
    refine ⟨r, ?_⟩
    simp only [runTasks, h1, if_true]
    exact hr

theorem updSectionSort_ids (db : Db) (sid i : Nat) :
    (updSectionSort db sid i).sections.map (fun s => s.id)
      = db.sections.map (fun s => s.id) := by
  show (db.sections.map _).map _ = _
  rw [List.map_map]
  apply List.map_congr_left
  intro a _
  by_cases h : (a.id == sid) = true <;> simp [Function.comp, h]

theorem sectionOwnedBy_of_proj (db db2 : Db)
    (h : db2.sections.map (fun s => (s.id, s.userId))
      = db.sections.map (fun s => (s.id, s.userId))) (sid u : Nat) :
    sectionOwnedBy db2 sid u ↔ sectionOwnedBy db sid u := by
  rw [sectionOwnedBy_iff, sectionOwnedBy_iff, h]

theorem taskExists_of_proj (db db2 : Db)
    (h : db2.tasks.map (fun t => t.id) = db.tasks.map (fun t => t.id)) (tid : Nat) :
    taskExists db2 tid ↔ taskExists db tid := by
  rw [taskExists_iff, taskExists_iff, h]

theorem runSections_ok_elim (u i : Nat) (p : List PayloadSection) (db : Db) (k : Nat)
    (oracle : Nat → Bool) (db2 : Db) (k2 : Nat)
    (h : runSections u i p db k oracle = .ok (db2, k2)) :
    (∀ s ∈ p, sectionOwnedBy db s.id u ∧ ∀ tid ∈ s.tasks, taskExists db tid) ∧
    db2.sections.map (fun s => (s.id, s.userId))
      = db.sections.map (fun s => (s.id, s.userId)) ∧
    db2.tasks.map (fun t => t.id) = db.tasks.map (fun t => t.id) := by
  induction p generalizing i db k with
  | nil =>
    simp only [runSections, Except.ok.injEq, Prod.mk.injEq] at h
    obtain ⟨hdb, _⟩ := h
    subst hdb
    exact ⟨by simp, rfl, rfl⟩
  | cons s rest ih =>
    simp only [runSections] at h
    cases hfind : db.sections.find? (fun r => r.id == s.id) with
    | none =>
      simp only [hfind] at h
      simp at h
    | some r =>
      simp only [hfind] at h
      by_cases hu : r.userId ≠ u
      · rw [if_pos hu] at h
        simp at h
      · rw [if_neg hu] at h
        by_cases ho : oracle k = true
        · rw [if_pos ho] at h
          simp at h
        · rw [if_neg ho] at h
          cases hrt : runTasks s.id 1 s.tasks (updSectionSort db s.id i) (k + 1) oracle with
          | error e =>
            simp only [hrt] at h
            simp at h
          | ok pr =>
            obtain ⟨dbm, km⟩ := pr
            simp only [hrt] at h
            obtain ⟨hchecks, hsecproj, htaskproj⟩ := ih (i + 1) dbm km h
            obtain ⟨htext, hmsec, hmids⟩ := runTasks_ok_elim s.id 1 s.tasks
              (updSectionSort db s.id i) (k + 1) oracle dbm km hrt
            have hprojS : dbm.sections.map (fun x => (x.id, x.userId))
                = db.sections.map (fun x => (x.id, x.userId)) := by
              rw [hmsec, updSectionSort_proj]
            have hprojT : dbm.tasks.map (fun t => t.id) = db.tasks.map (fun t => t.id) := by
              rw [hmids, updSectionSort_tasks]
            refine ⟨?_, ?_, ?_⟩
            · intro s0 hs0
              rcases List.mem_cons.mp hs0 with rfl | hs0
              · constructor
                · refine ⟨r, List.mem_of_find?_eq_some hfind, ?_, by omega⟩
                  simpa using List.find?_some hfind
                · intro tid htid
                  have he := htext tid htid
                  rwa [show taskExists (updSectionSort db s0.id i) tid ↔ taskExists db tid
                    from Iff.rfl] at he
              · obtain ⟨ho1, ho2⟩ := hchecks s0 hs0
                constructor
                · rwa [sectionOwnedBy_of_proj db dbm hprojS] at ho1
                · intro tid htid
                  have := ho2 tid htid
                  rwa [taskExists_of_proj db dbm hprojT] at this
            · rw [hsecproj, hprojS]
            · rw [htaskproj, hprojT]

theorem runSections_sections_frame (u i : Nat) (p : List PayloadSection) (db : Db) (k : Nat)
    (oracle : Nat → Bool) (db2 : Db) (k2 : Nat)
    (h : runSections u i p db k oracle = .ok (db2, k2)) (x : Nat)
    (hx : x ∉ p.map (fun s => s.id)) :
    db2.sections.filter (fun s => s.id == x) = db.sections.filter (fun s => s.id == x) := by
  induction p generalizing i db k with
  | nil =>
    simp only [runSections, Except.ok.injEq, Prod.mk.injEq] at h
    rw [← h.1]
  | cons s rest ih =>
    simp only [runSections] at h
    cases hfind : db.sections.find? (fun r => r.id == s.id) with
    | none =>
      simp only [hfind] at h
      simp at h
    | some r =>
      simp only [hfind] at h
      by_cases hu : r.userId ≠ u
      · rw [if_pos hu] at h
        simp at h
      · rw [if_neg hu] at h
        by_cases ho : oracle k = true
        · rw [if_pos ho] at h
          simp at h
        · rw [if_neg ho] at h
          cases hrt : runTasks s.id 1 s.tasks (updSectionSort db s.id i) (k + 1) oracle with
          | error e =>
            simp only [hrt] at h
            simp at h
          | ok pr =>
            obtain ⟨dbm, km⟩ := pr
            simp only [hrt] at h
            have hxr : x ∉ rest.map (fun s => s.id) := by
              intro hc
              exact hx (by simpa using Or.inr (List.mem_map.mp hc))
            have hxs : x ≠ s.id := by
              intro hc
              exact hx (by simp [hc])
            have hmsec := (runTasks_ok_elim s.id 1 s.tasks
              (updSectionSort db s.id i) (k + 1) oracle dbm km hrt).2.1
            rw [ih (i + 1) dbm km h hxr, hmsec, updSectionSort_frame db s.id i x hxs]

theorem runSections_tasks_frame (u i : Nat) (p : List PayloadSection) (db : Db) (k : Nat)
    (oracle : Nat → Bool) (db2 : Db) (k2 : Nat)
    (h : runSections u i p db k oracle = .ok (db2, k2)) (x : Nat)
    (hx : x ∉ payloadTaskIds p) :
    db2.tasks.filter (fun t => t.id == x) = db.tasks.filter (fun t => t.id == x) := by
  induction p generalizing i db k with
  | nil =>
    simp only [runSections, Except.ok.injEq, Prod.mk.injEq] at h
    rw [← h.1]
  | cons s rest ih =>
    simp only [runSections] at h
    cases hfind : db.sections.find? (fun r => r.id == s.id) with
    | none =>
      simp only [hfind] at h
      simp at h
    | some r =>
      simp only [hfind] at h
      by_cases hu : r.userId ≠ u
      · rw [if_pos hu] at h
        simp at h
      · rw [if_neg hu] at h
        by_cases ho : oracle k = true
        · rw [if_pos ho] at h
          simp at h
        · rw [if_neg ho] at h
          cases hrt : runTasks s.id 1 s.tasks (updSectionSort db s.id i) (k + 1) oracle with
          | error e =>
            simp only [hrt] at h
            simp at h
          | ok pr =>
            obtain ⟨dbm, km⟩ := pr
            simp only [hrt] at h
            have hxh : x ∉ s.tasks := by
              intro hc
              exact hx (List.mem_append.mpr (Or.inl hc))
            have hxr : x ∉ payloadTaskIds rest := by
              intro hc
              exact hx (List.mem_append.mpr (Or.inr hc))
            have hfr := runTasks_frame s.id 1 s.tasks (updSectionSort db s.id i) (k + 1)
              oracle dbm km hrt x hxh
            rw [ih (i + 1) dbm km h hxr, hfr, updSectionSort_tasks]

theorem runSections_hit_sections (u i : Nat) (p : List PayloadSection) (db : Db) (k : Nat)
    (oracle : Nat → Bool) (db2 : Db) (k2 : Nat)
    (h : runSections u i p db k oracle = .ok (db2, k2))
    (hnds : (p.map (fun s => s.id)).Nodup) :
    ∀ idx (hidx : idx < p.length), ∀ s2 ∈ db2.sections,
      s2.id = (p.get ⟨idx, hidx⟩).id → s2.sortOrder = i + idx := by
  induction p generalizing i db k with
  | nil =>
    intro idx hidx
    simp at hidx
  | cons s rest ih =>
    simp only [runSections] at h
    cases hfind : db.sections.find? (fun r => r.id == s.id) with
    | none =>
      simp only [hfind] at h
      simp at h
    | some r =>
      simp only [hfind] at h
      by_cases hu : r.userId ≠ u
      · rw [if_pos hu] at h
        simp at h
      · rw [if_neg hu] at h
        by_cases ho : oracle k = true
        · rw [if_pos ho] at h
          simp at h
        · rw [if_neg ho] at h
          cases hrt : runTasks s.id 1 s.tasks (updSectionSort db s.id i) (k + 1) oracle with
          | error e =>
            simp only [hrt] at h
            simp at h
          | ok pr =>
            obtain ⟨dbm, km⟩ := pr
            simp only [hrt] at h
            have hmsec := (runTasks_ok_elim s.id 1 s.tasks
              (updSectionSort db s.id i) (k + 1) oracle dbm km hrt).2.1
            have hnds2 : s.id ∉ rest.map (fun x => x.id) ∧
                (rest.map (fun x => x.id)).Nodup := by
              rw [List.map_cons, List.nodup_cons] at hnds
              exact hnds
            intro idx hidx s2 hs2 hid
            cases idx with
            | zero =>
              have hsid : s.id ∉ rest.map (fun x => x.id) := hnds2.1
              have hfr := runSections_sections_frame u (i + 1) rest dbm km oracle db2 k2
                h s.id hsid
              have hid0 : s2.id = s.id := hid
              have hsf : s2 ∈ db2.sections.filter (fun x => x.id == s.id) :=
                List.mem_filter.mpr ⟨hs2, by simpa using hid0⟩
              rw [hfr, hmsec] at hsf
              have hs1 : s2 ∈ (updSectionSort db s.id i).sections :=
                (List.mem_filter.mp hsf).1
              have := updSectionSort_hit db s.id i s2 hs1 hid0
              omega
            | succ idx0 =>
              have hr := ih (i + 1) dbm km h hnds2.2
                idx0 (by simpa using hidx) s2 hs2 (by simpa using hid)
              omega

theorem runSections_hit_tasks (u i : Nat) (p : List PayloadSection) (db : Db) (k : Nat)
    (oracle : Nat → Bool) (db2 : Db) (k2 : Nat)
    (h : runSections u i p db k oracle = .ok (db2, k2))
    (hndt : (payloadTaskIds p).Nodup) :
    ∀ idx (hidx : idx < p.length), ∀ j (hj : j < (p.get ⟨idx, hidx⟩).tasks.length),
      ∀ t ∈ db2.tasks, t.id = (p.get ⟨idx, hidx⟩).tasks.get ⟨j, hj⟩ →
        t.sectionId = (p.get ⟨idx, hidx⟩).id ∧ t.sortOrder = j + 1 := by
  induction p generalizing i db k with
  | nil =>
    intro idx hidx
    simp at hidx
  | cons s rest ih =>
    have hnd2 : s.tasks.Nodup ∧ (payloadTaskIds rest).Nodup ∧
        s.tasks.Disjoint (payloadTaskIds rest) := by
      have := List.nodup_append.mp (by simpa [payloadTaskIds] using hndt)
      exact this
    simp only [runSections] at h
    cases hfind : db.sections.find? (fun r => r.id == s.id) with
    | none =>
      simp only [hfind] at h
      simp at h
    | some r =>
      simp only [hfind] at h
      by_cases hu : r.userId ≠ u
      · rw [if_pos hu] at h
        simp at h
      · rw [if_neg hu] at h
        by_cases ho : oracle k = true
        · rw [if_pos ho] at h
          simp at h
        · rw [if_neg ho] at h
          cases hrt : runTasks s.id 1 s.tasks (updSectionSort db s.id i) (k + 1) oracle with
          | error e =>
            simp only [hrt] at h
            simp at h
          | ok pr =>
            obtain ⟨dbm, km⟩ := pr
            simp only [hrt] at h
            intro idx hidx j hj t ht hid
            cases idx with
            | zero =>
              have hx : s.tasks.get ⟨j, hj⟩ ∈ s.tasks := List.get_mem _ _ hj
              have hxr : s.tasks.get ⟨j, hj⟩ ∉ payloadTaskIds rest :=
                fun hc => hnd2.2.2 hx hc
              have hfr := runSections_tasks_frame u (i + 1) rest dbm km oracle db2 k2
                h (s.tasks.get ⟨j, hj⟩) hxr
              have hid0 : t.id = s.tasks.get ⟨j, hj⟩ := hid
              have htf : t ∈ db2.tasks.filter (fun x => x.id == s.tasks.get ⟨j, hj⟩) :=
                List.mem_filter.mpr ⟨ht, by simpa using hid0⟩
              rw [hfr] at htf
              have htm : t ∈ dbm.tasks := (List.mem_filter.mp htf).1
              have hh := runTasks_hit s.id 1 s.tasks (updSectionSort db s.id i) (k + 1)
                oracle dbm km hrt hnd2.1 j hj t htm hid0
              exact ⟨hh.1, by omega⟩
            | succ idx0 =>
              exact ih (i + 1) dbm km h hnd2.2.1 idx0 (by simpa using hidx) j hj t ht hid

theorem runSections_ok_of_checks (u i : Nat) (p : List PayloadSection) (db : Db) (k : Nat)
    (hnd : (db.sections.map (fun s => s.id)).Nodup)
    (hsec : ∀ s ∈ p, sectionOwnedBy db s.id u)
    (htask : ∀ s ∈ p, ∀ tid ∈ s.tasks, taskExists db tid) :
    ∃ r, runSections u i p db k (fun _ => false) = .ok r := by
  induction p generalizing i db k with
  | nil => exact ⟨(db, k), rfl⟩
  | cons s rest ih =>
    obtain ⟨r0, hr0mem, hr0id, hr0u⟩ := hsec s (List.mem_cons_self _ _)
    cases hfind : db.sections.find? (fun r => r.id == s.id) with
    | none =>
      rw [List.find?_eq_none] at hfind
      exact absurd (by simpa using hr0id) (hfind r0 hr0mem)
    | some r =>
      have hrmem : r ∈ db.sections := List.mem_of_find?_eq_some hfind
      have hrid : r.id = s.id := by simpa using List.find?_some hfind
      have hr : r = r0 :=
        List.inj_on_of_nodup_map hnd hrmem hr0mem (by rw [hrid, hr0id])
      have hru : ¬ r.userId ≠ u := by
        rw [hr, hr0u]
        simp
      have htask1 : ∀ tid ∈ s.tasks, taskExists (updSectionSort db s.id i) tid := by
        intro tid htid
        exact htask s (List.mem_cons_self _ _) tid htid
      obtain ⟨⟨dbm, km⟩, hrt⟩ := runTasks_ok_of_checks s.id 1 s.tasks
        (updSectionSort db s.id i) (k + 1) htask1
      obtain ⟨hmtext, hmsec, hmids⟩ := runTasks_ok_elim s.id 1 s.tasks
        (updSectionSort db s.id i) (k + 1) (fun _ => false) dbm km hrt
      have hprojS : dbm.sections.map (fun x => (x.id, x.userId))
          = db.sections.map (fun x => (x.id, x.userId)) := by
        rw [hmsec, updSectionSort_proj]
      have hprojT : dbm.tasks.map (fun t => t.id) = db.tasks.map (fun t => t.id) := by
        rw [hmids, updSectionSort_tasks]
      have hndm : (dbm.sections.map (fun x => x.id)).Nodup := by
        rw [hmsec, updSectionSort_ids]
        exact hnd
      have hsecm : ∀ x ∈ rest, sectionOwnedBy dbm x.id u := by
        intro x hx
        rw [sectionOwnedBy_of_proj db dbm hprojS]
        exact hsec x (List.mem_cons_of_mem _ hx)
      have htaskm : ∀ x ∈ rest, ∀ tid ∈ x.tasks, taskExists dbm tid := by
        intro x hx tid htid
        rw [taskExists_of_proj db dbm hprojT]
        exact htask x (List.mem_cons_of_mem _ hx) tid htid
      obtain ⟨r2, hr2⟩ := ih (i + 1) dbm km hndm hsecm htaskm
      refine ⟨r2, ?_⟩
      simp only [runSections, hfind, if_neg hru, Bool.false_eq_true, if_false, hrt]
      exact hr2

theorem runTasks_error_ne_ok (sid p0 : Nat) (tids : List Nat) (db : Db) (k : Nat)
    (oracle : Nat → Bool) (e : BatchResp)
    (h : runTasks sid p0 tids db k oracle = .error e) : e ≠ .ok := by
  induction tids generalizing p0 db k with
  | nil => simp [runTasks] at h
  | cons tid rest ih =>
    simp only [runTasks] at h
    by_cases hf : (db.tasks.find? (fun t => t.id == tid)).isSome = true
    · rw [if_pos hf] at h
      by_cases ho : oracle k = true
      · rw [if_pos ho] at h
        injection h with h2
        subst h2
        decide
      · rw [if_neg ho] at h
        exact ih (p0 + 1) (updTask db tid sid p0) (k + 1) h
    · rw [if_neg hf] at h
      injection h with h2
      subst h2
      decide

theorem runSections_error_ne_ok (u i : Nat) (p : List PayloadSection) (db : Db) (k : Nat)
    (oracle : Nat → Bool) (e : BatchResp)
    (h : runSections u i p db k oracle = .error e) : e ≠ .ok := by
  induction p generalizing i db k with
  | nil => simp [runSections] at h
  | cons s rest ih =>
    simp only [runSections] at h
    cases hfind : db.sections.find? (fun r => r.id == s.id) with
    | none =>
      simp only [hfind] at h
      injection h with h2
      subst h2
      decide
    | some r =>
      simp only [hfind] at h
      by_cases hu : r.userId ≠ u
      · rw [if_pos hu] at h
        injection h with h2
        subst h2
        decide
      · rw [if_neg hu] at h
        by_cases ho : oracle k = true
        · rw [if_pos ho] at h
          injection h with h2
          subst h2
          decide
        · rw [if_neg ho] at h
          cases hrt : runTasks s.id 1 s.tasks (updSectionSort db s.id i) (k + 1) oracle with
          | error e2 =>
            simp only [hrt] at h
            injection h with h2
            exact h2 ▸ runTasks_error_ne_ok s.id 1 s.tasks (updSectionSort db s.id i)
              (k + 1) oracle e2 hrt
          | ok pr =>
            obtain ⟨dbm, km⟩ := pr
            simp only [hrt] at h
            exact ih (i + 1) dbm km h

theorem updateSectionsWithTasks_ok_elim (db : Db) (u : Nat) (p : List PayloadSection)
    (oracle : Nat → Bool) (cf : Bool)
    (hok : (updateSectionsWithTasks db u p oracle cf).1 = .ok) :
    ∃ dbm km, runSections u 1 p db 0 oracle = .ok (dbm, km) ∧
      (updateSectionsWithTasks db u p oracle cf).2 = dbm := by
  unfold updateSectionsWithTasks at hok ⊢
  cases hrun : runSections u 1 p db 0 oracle with
  | error e =>
    simp only [hrun] at hok
    exact absurd hok (runSections_error_ne_ok u 1 p db 0 oracle e hrun)
  | ok pr =>
    obtain ⟨dbm, km⟩ := pr
    simp only [hrun] at hok ⊢
    cases cf with
    | true => simp at hok
    | false => exact ⟨dbm, km, rfl, rfl⟩

/-- C3: every non-ok exit of the batch (the ownership/existence aborts as
well as a failed sort-update Exec or a failed commit) leaves the stored
tables exactly as before the call, and a payload listing a section the
caller does not own or a task that does not exist can never exit ok. -/
theorem batch_failure_atomicity (db : Db) (u : Nat) (p : List PayloadSection)
    (oracle : Nat → Bool) (cf : Bool) :
    ((updateSectionsWithTasks db u p oracle cf).1 ≠ .ok →
      (updateSectionsWithTasks db u p oracle cf).2 = db) ∧
    ((∃ s ∈ p, ¬ sectionOwnedBy db s.id u) ∨
        (∃ s ∈ p, ∃ tid ∈ s.tasks, ¬ taskExists db tid) →
      (updateSectionsWithTasks db u p oracle cf).1 ≠ .ok ∧
        (updateSectionsWithTasks db u p oracle cf).2 = db) := by
  have hbase : (updateSectionsWithTasks db u p oracle cf).1 ≠ .ok →
      (updateSectionsWithTasks db u p oracle cf).2 = db := by
    intro hne
    unfold updateSectionsWithTasks at hne ⊢
    cases hrun : runSections u 1 p db 0 oracle with
    | error e =>
      simp only [hrun]
    | ok pr =>
      obtain ⟨dbm, km⟩ := pr
      simp only [hrun] at hne ⊢
      cases cf with
      | true => rfl
      | false => exact absurd rfl hne
  refine ⟨hbase, ?_⟩
  intro hbad
  have hne : (updateSectionsWithTasks db u p oracle cf).1 ≠ .ok := by
    intro hok
    obtain ⟨dbm, km, hrun, _⟩ := updateSectionsWithTasks_ok_elim db u p oracle cf hok
    have hchecks := (runSections_ok_elim u 1 p db 0 oracle dbm km hrun).1
    rcases hbad with ⟨s, hs, hno⟩ | ⟨s, hs, tid, htid, hno⟩
    · exact hno (hchecks s hs).1
    · exact hno ((hchecks s hs).2 tid htid)
  exact ⟨hne, hbase hne⟩

theorem batch_failure_atomicity_witness :
    (updateSectionsWithTasks dbA 1 [⟨3, []⟩] (fun _ => false) false).1 ≠ .ok ∧
      (updateSectionsWithTasks dbA 1 [⟨3, []⟩] (fun _ => false) false).2 = dbA := by
  have h := batch_failure_atomicity dbA 1 [⟨3, []⟩] (fun _ => false) false
  apply h.2
  left
  refine ⟨⟨3, []⟩, by simp, by decide⟩

/-- C2 counterexample: with tasks 1, 2, 3 stored at ranks 1, 2, 3 in
section 1, a batch payload listing only tasks 1 and 3 for that section is
not rejected — the handler answers ok, moves task 3 to rank 2 (a change),
and leaves omitted task 2 at rank 2, so the scope now holds duplicate
ranks. -/
theorem batch_incomplete_payload_accepted :
    (updateSectionsWithTasks dbC2 1 [⟨1, [1, 3]⟩] (fun _ => false) false).1 = .ok ∧
      (∃ t ∈ (updateSectionsWithTasks dbC2 1 [⟨1, [1, 3]⟩] (fun _ => false) false).2.tasks,
        t.id = 3 ∧ t.sortOrder = 2) ∧
      (∃ t ∈ (updateSectionsWithTasks dbC2 1 [⟨1, [1, 3]⟩] (fun _ => false) false).2.tasks,
        t.id = 2 ∧ t.sortOrder = 2) := by
  decide

/-- C2 amended: the batch never checks completeness.  Whenever every
listed section is owned by the caller and every listed task exists (and
no Exec or commit fails), the batch succeeds even if stored tasks are
omitted from the payload, and every stored task listed nowhere keeps its
row (id, section_id and rank) unchanged. -/
theorem batch_no_completeness_check (db : Db) (u : Nat) (p : List PayloadSection)
    (hnd : (db.sections.map (fun s => s.id)).Nodup)
    (hsec : ∀ s ∈ p, sectionOwnedBy db s.id u)
    (htask : ∀ s ∈ p, ∀ tid ∈ s.tasks, taskExists db tid) :
    (updateSectionsWithTasks db u p (fun _ => false) false).1 = .ok ∧
    ∀ t ∈ db.tasks, t.id ∉ payloadTaskIds p →
      t ∈ (updateSectionsWithTasks db u p (fun _ => false) false).2.tasks := by
  obtain ⟨⟨dbm, km⟩, hrun⟩ := runSections_ok_of_checks u 1 p db 0 hnd hsec htask
  have hresp : updateSectionsWithTasks db u p (fun _ => false) false = (.ok, dbm) := by
    unfold updateSectionsWithTasks
    rw [hrun]
    rfl
  constructor
  · rw [hresp]
  · intro t ht hnot
    rw [hresp]
    have hfr := runSections_tasks_frame u 1 p db 0 (fun _ => false) dbm km hrun t.id hnot
    have hmem : t ∈ db.tasks.filter (fun x => x.id == t.id) :=
      List.mem_filter.mpr ⟨ht, by simp⟩
    rw [← hfr] at hmem
    exact (List.mem_filter.mp hmem).1

theorem batch_no_completeness_check_witness :
    (updateSectionsWithTasks dbC2 1 [⟨1, [1, 3]⟩] (fun _ => false) false).1 = .ok ∧
      ⟨2, 1, "Y", "y", false, 2⟩ ∈
        (updateSectionsWithTasks dbC2 1 [⟨1, [1, 3]⟩] (fun _ => false) false).2.tasks := by
  have h := batch_no_completeness_check dbC2 1 [⟨1, [1, 3]⟩] (by decide)
    (by decide) (by decide)
  exact ⟨h.1, h.2 ⟨2, 1, "Y", "y", false, 2⟩ (by decide) (by decide)⟩

/-- C4 counterexample: user 1's batch lists section 1 twice with empty
task lists.  The batch succeeds, but the section listed at 1-based
position 1 ends with rank 2: the later listing's UPDATE wins, so "the
section at position i has rank i" fails as stated. -/
theorem batch_duplicate_listing_breaks_positions :
    (updateSectionsWithTasks dbC4 1 [⟨1, []⟩, ⟨1, []⟩] (fun _ => false) false).1 = .ok ∧
      ∀ s ∈ (updateSectionsWithTasks dbC4 1 [⟨1, []⟩, ⟨1, []⟩]
          (fun _ => false) false).2.sections,
        s.id = 1 → ¬ s.sortOrder = 1 := by
  decide

/-- C4 amended: for a successful batch whose payload lists each section
id at most once and each task id at most once overall, the stored section
matching the entry at 1-based position i carries rank i, and the stored
task matching position p of a listed section's task list carries that
section's id and rank p. -/
theorem batch_success_positions (db : Db) (u : Nat) (p : List PayloadSection)
    (oracle : Nat → Bool) (cf : Bool)
    (hnds : (p.map (fun s => s.id)).Nodup)
    (hndt : (payloadTaskIds p).Nodup)
    (hok : (updateSectionsWithTasks db u p oracle cf).1 = .ok) :
    (∀ idx (hidx : idx < p.length),
      ∀ s ∈ (updateSectionsWithTasks db u p oracle cf).2.sections,
        s.id = (p.get ⟨idx, hidx⟩).id → s.sortOrder = idx + 1) ∧
    (∀ idx (hidx : idx < p.length), ∀ j (hj : j < (p.get ⟨idx, hidx⟩).tasks.length),
      ∀ t ∈ (updateSectionsWithTasks db u p oracle cf).2.tasks,
        t.id = (p.get ⟨idx, hidx⟩).tasks.get ⟨j, hj⟩ →
          t.sectionId = (p.get ⟨idx, hidx⟩).id ∧ t.sortOrder = j + 1) := by
  obtain ⟨dbm, km, hrun, hsnd⟩ := updateSectionsWithTasks_ok_elim db u p oracle cf hok
  rw [hsnd]
  constructor
  · intro idx hidx s hs hid
    have h := runSections_hit_sections u 1 p db 0 oracle dbm km hrun hnds idx hidx s hs hid
    omega
  · intro idx hidx j hj t ht hid
    exact runSections_hit_tasks u 1 p db 0 oracle dbm km hrun hndt idx hidx j hj t ht hid

theorem batch_success_positions_witness :
    ((updateSectionsWithTasks dbC2 1 [⟨1, [2, 1, 3]⟩] (fun _ => false) false).1 = .ok) ∧
      (∀ t ∈ (updateSectionsWithTasks dbC2 1 [⟨1, [2, 1, 3]⟩]
          (fun _ => false) false).2.tasks,
        t.id = 1 → t.sectionId = 1 ∧ t.sortOrder = 2) := by
  have hok : (updateSectionsWithTasks dbC2 1 [⟨1, [2, 1, 3]⟩]
      (fun _ => false) false).1 = .ok := by decide
  have h := batch_success_positions dbC2 1 [⟨1, [2, 1, 3]⟩] (fun _ => false) false
    (by decide) (by decide) hok
  refine ⟨hok, ?_⟩
  intro t ht hid
  exact h.2 0 (by decide) 1 (by decide) t ht hid

/-- C9 (code bug): the served CreateTask handler never consults any
owner: a request for user 1's section 5 — whoever submits it — inserts
the task and answers created, whereas the fuller task-handler revision
rejects the same request from user 2 with Forbidden and touches nothing,
which is the behaviour the claim (and the spec) describe. -/
theorem createtask_missing_ownership_check :
    (createTask dbC9 ⟨5, "t", "c"⟩).1 = .created ⟨1, 5, "t", "c", false, 1⟩ ∧
      (createTask dbC9 ⟨5, "t", "c"⟩).2.tasks = [⟨1, 5, "t", "c", false, 1⟩] ∧
      createTaskChecked dbC9 2 ⟨5, "t", "c"⟩ = (.forbidden, dbC9) ∧
      (createTaskChecked dbC9 1 ⟨5, "t", "c"⟩).1 = .created ⟨1, 5, "t", "c", false, 1⟩ := by
  decide

/-- C10: the batch checks listed tasks only for existence, never for
ownership: user 1's payload lists their own section 1 containing task 7,
which currently lives in user 2's section 2; the batch succeeds and
re-parents task 7 into section 1 with rank 1. -/
theorem batch_task_ownership_not_checked :
    (∃ s ∈ dbC10.sections, s.id = 2 ∧ s.userId = 2) ∧
      (∃ t ∈ dbC10.tasks, t.id = 7 ∧ t.sectionId = 2) ∧
      (updateSectionsWithTasks dbC10 1 [⟨1, [7]⟩] (fun _ => false) false).1 = .ok ∧
      (∃ t ∈ (updateSectionsWithTasks dbC10 1 [⟨1, [7]⟩] (fun _ => false) false).2.tasks,
        t.id = 7 ∧ t.sectionId = 1 ∧ t.sortOrder = 1) := by
  decide

end Micro
